import Mathlib

/-! # SOCKS5 proxy: handshake (`Auth`), request (`Conn`) and the connection handler

A shallow embedding of `socks5.go` and of `process` in `main.go`.  The client connection is a value of type
`World`: the bytes the client has sent and the server has not read yet, the
outcomes the transport gives to the server's `Write` calls, the answer of
`net.Dial` for each address, and the trace of everything done so far.
Every Go function becomes a function from `World` to a result and a new `World`.
-/

namespace Socks5

/-! ## Data model -/

/-- One octet of the wire (Go `byte`). -/
abbrev Byte := Fin 256

/-- Go `string`: an immutable sequence of bytes. -/
abbrev GoString := List Byte

/-- Byte of a character (used for ASCII text only). -/
def byteOfChar (c : Char) : Byte := ⟨c.toNat % 256, Nat.mod_lt _ (by decide)⟩

/-- Go string of an ASCII literal. -/
def ascii (s : String) : GoString := s.toList.map byteOfChar

/-- The verb `%d` of `fmt.Sprintf` on an unsigned integer: its decimal digits. -/
def fmtD (n : Nat) : GoString := (Nat.toDigits 10 n).map byteOfChar

/-- Handle of a connection returned by `net.Dial`. -/
abbrev Handle := Nat

/-- The streams of one proxied connection. -/
inductive Stream where
  | client
  | remote (h : Handle)
  deriving DecidableEq, Repr

/-- What `net.Dial` returns: a connection, or a non-nil error with its message. -/
inductive DialResult where
  | conn (h : Handle)
  | fail (msg : String)
  deriving DecidableEq, Repr

/-- What one call of `client.Write(p)` returns: the count `n` and the error
(`none` is Go's `nil`). -/
structure WriteOutcome where
  n : Nat
  err : Option String
  deriving DecidableEq, Repr

/-- Observable actions, in the order they happen. -/
inductive Event where
  /-- `io.ReadFull(client, buf[:want])` returned `got`. -/
  | read (want got : Nat)
  /-- `client.Write(p)` returned the count `n`. -/
  | write (p : List Byte) (n : Nat)
  /-- `net.Dial(network, address)` was called. -/
  | dial (network : String) (address : GoString)
  /-- `Close()` was called on a stream. -/
  | close (s : Stream)
  /-- `go forward(src, dest)`: a relay goroutine was started. -/
  | spawn (src dest : Stream)
  /-- `io.Copy(dst, src)` returned in a relay goroutine. -/
  | copy (dst src : Stream)
  deriving DecidableEq, Repr

/-- The client connection and its environment. -/
structure World where
  /-- Bytes sent by the client and not read yet; after them the stream ends. -/
  input : List Byte
  /-- Outcomes of the coming `Write` calls on the client, in order; once the
  list is used up every `Write` succeeds in full. -/
  wr : List WriteOutcome
  /-- Answer of `net.Dial(network, address)`. -/
  dial : String → GoString → DialResult
  /-- Everything done so far, oldest first. -/
  trace : List Event

/-- Result of a Go function that returns a value or an `error`, or panics. -/
inductive Res (α : Type) where
  | ok (a : α)
  | error (msg : String)
  | panic (msg : String)
  deriving DecidableEq, Repr

/-! ## Observations on a trace -/

/-- Bytes the client stream accepted from the server: for each `Write(p)` that
reported `n`, the first `n` bytes of `p`. -/
def written : List Event → List Byte
  | [] => []
  | .write p n :: t => p.take n ++ written t
  | _ :: t => written t

/-- The `net.Dial` calls made, in order. -/
def dialed : List Event → List (String × GoString)
  | [] => []
  | .dial nw a :: t => (nw, a) :: dialed t
  | _ :: t => dialed t

/-- Number of `Close()` calls made on stream `s`. -/
def closes (s : Stream) : List Event → Nat
  | [] => 0
  | .close s2 :: t => (if s2 = s then 1 else 0) + closes s t
  | _ :: t => closes s t

/-! ## Library primitives -/

/-- The buffer `make([]byte, n)`. -/
def make (n : Nat) : List Byte := List.replicate n 0

/-- Result of `io.ReadFull`: count, error, the buffer after the call, the world. -/
structure ReadRes where
  n : Nat
  err : Option String
  buf : List Byte
  world : World

/-- The call `io.ReadFull(client, buf[:k])` on a stream that delivers `w.input`
and then ends: `k` bytes and a nil error when they are there, otherwise all
that is left with `io.EOF` (nothing read) or `io.ErrUnexpectedEOF`. The bytes
read overwrite the front of `buf`. -/
def ReadFull (w : World) (buf : List Byte) (k : Nat) : ReadRes :=
  let got := w.input.take k
  let n := got.length
  { n := n
    err := if n = k then none else if n = 0 then some "EOF" else some "unexpected EOF"
    buf := got ++ buf.drop n
    world := { w with input := w.input.drop k, trace := w.trace ++ [Event.read k n] } }

/-- Outcome the transport gives to the next `Write` of `len` bytes. -/
def nextWrite (wr : List WriteOutcome) (len : Nat) : WriteOutcome :=
  match wr with
  | [] => ⟨len, none⟩
  | o :: _ => o

/-- The call `client.Write(p)`: the transport decides the outcome. -/
def Write (w : World) (p : List Byte) : WriteOutcome × World :=
  (nextWrite w.wr p.length,
    { w with wr := w.wr.tail, trace := w.trace ++ [Event.write p (nextWrite w.wr p.length).n] })

/-- The call `net.Dial(network, address)`. -/
def Dial (w : World) (network : String) (address : GoString) : DialResult × World :=
  (w.dial network address, { w with trace := w.trace ++ [Event.dial network address] })

/-- The call `s.Close()`. -/
def Close (w : World) (s : Stream) : World :=
  { w with trace := w.trace ++ [Event.close s] }

/-- The expression `errors.New(pre + err.Error())`; calling `Error()` on a nil
error panics. -/
def wrapErr {α : Type} (pre : String) (err : Option String) : Res α :=
  match err with
  | some e => Res.error (pre ++ e)
  | none => Res.panic "invalid memory address or nil pointer dereference"

/-- The call `binary.BigEndian.Uint16(b)`. -/
def bigEndianUint16 (b : List Byte) : Nat :=
  ((b.getD 1 0).val ||| ((b.getD 0 0).val <<< 8)) % 65536

/-! ## `socks5.go` -/

/-- `func Auth(client net.Conn) error`. -/
def Auth (w : World) : Res Unit × World :=
  let buf := make 256
  let r := ReadFull w buf 2
  if r.n ≠ 2 then (wrapErr "reading header: " r.err, r.world) else
  let ver := (r.buf.getD 0 0).val
  let nMethods := (r.buf.getD 1 0).val
  if ver ≠ 5 then (Res.error "invalid version", r.world) else
  let r := ReadFull r.world r.buf nMethods
  if r.n ≠ nMethods then (wrapErr "reading methods: " r.err, r.world) else
  let o := Write r.world [0x05, 0x00]
  if o.1.n ≠ 2 ∨ o.1.err ≠ none then (wrapErr "write rsp err: " o.1.err, o.2) else
  (Res.ok (), o.2)

/-- The `switch atyp` of `Conn`: the address string, or the early return. -/
def readAddr (w : World) (buf : List Byte) (atyp : Byte) :
    Res GoString × List Byte × World :=
  if atyp = 1 then
    let r := ReadFull w buf 4
    if r.n ≠ 4 then (wrapErr "invalid IPv4: " r.err, r.buf, r.world) else
    (Res.ok (fmtD (r.buf.getD 0 0).val ++ ascii "." ++ fmtD (r.buf.getD 1 0).val ++ ascii "."
        ++ fmtD (r.buf.getD 2 0).val ++ ascii "." ++ fmtD (r.buf.getD 3 0).val),
      r.buf, r.world)
  else if atyp = 3 then
    let r := ReadFull w buf 1
    if r.n ≠ 1 then (wrapErr "invalid hostname: " r.err, r.buf, r.world) else
    let addrLen := (r.buf.getD 0 0).val
    let r := ReadFull r.world r.buf addrLen
    if r.n ≠ addrLen then (wrapErr "invalid hostname: " r.err, r.buf, r.world) else
    (Res.ok (r.buf.take addrLen), r.buf, r.world)
  else if atyp = 4 then (Res.error "IPv6: no supported yet", buf, w)
  else (Res.error "invalid atyp", buf, w)

/-- Lines 147 to 160 of `Conn`: dial the destination and send the reply. -/
def dialAndReply (w : World) (destAddrPort : GoString) : Res Handle × World :=
  match Dial w "tcp" destAddrPort with
  | (DialResult.fail e, w) => (Res.error ("dial dst: " ++ e), w)
  | (DialResult.conn dest, w) =>
    let o := Write w [0x05, 0x00, 0x00, 0x01, 0, 0, 0, 0, 0, 0]
    if o.1.err ≠ none then
      (wrapErr "write rsp: " o.1.err, Close o.2 (Stream.remote dest))
    else (Res.ok dest, o.2)

/-- `func Conn(client net.Conn) (net.Conn, error)`. -/
def Conn (w : World) : Res Handle × World :=
  let buf := make 256
  let r := ReadFull w buf 4
  if r.n ≠ 4 then (wrapErr "read header: " r.err, r.world) else
  let ver := r.buf.getD 0 0
  let cmd := r.buf.getD 1 0
  let atyp := r.buf.getD 3 0
  if ver ≠ 5 then (Res.error "invalid version", r.world) else
  if cmd ≠ 1 then (Res.error "invalid request type", r.world) else
  match readAddr r.world r.buf atyp with
  | (Res.error m, _, w) => (Res.error m, w)
  | (Res.panic m, _, w) => (Res.panic m, w)
  | (Res.ok addr, buf, w) =>
    let r := ReadFull w buf 2
    if r.n ≠ 2 then (wrapErr "read port: " r.err, r.world) else
    let port := bigEndianUint16 (r.buf.take 2)
    dialAndReply r.world (addr ++ ascii ":" ++ fmtD port)

/-! ## Well-formed requests and example worlds -/

/-- Destination of a CONNECT request as it stands on the wire. -/
inductive Target where
  /-- ATYP 1 and the four address bytes. -/
  | ipv4 (a b c d : Byte)
  /-- ATYP 3, the length byte and the host bytes. -/
  | domain (len : Byte) (host : List Byte)
  deriving DecidableEq, Repr

/-- The length byte of a domain target counts its host bytes. -/
def Target.wf : Target → Prop
  | Target.ipv4 _ _ _ _ => True
  | Target.domain len host => host.length = len.val

/-- Address-type byte and address field of a target. -/
def Target.wire : Target → List Byte
  | Target.ipv4 a b c d => [1, a, b, c, d]
  | Target.domain len host => 3 :: len :: host

/-- The bytes of a CONNECT request: header, address field, port. -/
def requestBytes (rsv : Byte) (t : Target) (hi lo : Byte) : List Byte :=
  [5, 1, rsv] ++ t.wire ++ [hi, lo]

/-- Host part of the address string of a target. -/
def Target.host : Target → GoString
  | Target.ipv4 a b c d =>
    fmtD a.val ++ ascii "." ++ fmtD b.val ++ ascii "." ++ fmtD c.val ++ ascii "." ++ fmtD d.val
  | Target.domain _ host => host

/-- The address string `host:port` of a request. -/
def hostPort (t : Target) (hi lo : Byte) : GoString :=
  t.host ++ ascii ":" ++ fmtD (256 * hi.val + lo.val)

/-- The `io.ReadFull` calls `Conn` makes on a well-formed request. -/
def Target.reads : Target → List Event
  | Target.ipv4 _ _ _ _ => [Event.read 4 4, Event.read 4 4, Event.read 2 2]
  | Target.domain len _ =>
    [Event.read 4 4, Event.read 1 1, Event.read len.val len.val, Event.read 2 2]

/-- The reply frame of `Conn`. -/
def replyFrame : List Byte := [0x05, 0x00, 0x00, 0x01, 0, 0, 0, 0, 0, 0]

/-- A fresh client connection with the given input and write outcomes, in a
network where every dial yields connection 7. -/
def freshWorld (input : List Byte) (wr : List WriteOutcome) : World :=
  { input := input, wr := wr, dial := fun _ _ => DialResult.conn 7, trace := [] }

/-- A client that sends a complete IPv4 request, on a transport whose next
`Write` fails. -/
def brokenPipeWorld : World :=
  freshWorld [5, 1, 0, 1, 93, 184, 216, 34, 0x00, 0x50] [⟨0, some "broken pipe"⟩]

/-- World `w1` comes from `w` by `io.ReadFull` calls alone: nothing was
written, dialed or closed in between. -/
def ReadsOnly (w w1 : World) : Prop :=
  w1.wr = w.wr ∧ w1.dial = w.dial ∧
    ∃ evs, w1.trace = w.trace ++ evs ∧ ∀ e ∈ evs, ∃ k n, e = Event.read k n

/-- Message of the error `io.ReadFull` reports on a short read that got `got`
bytes: `io.EOF` when nothing was read, `io.ErrUnexpectedEOF` otherwise. -/
def eofCause (got : Nat) : String := if got = 0 then "EOF" else "unexpected EOF"

/-- The errors `Conn` returns from the branches taken on a short read. -/
def connReadErrors : List String :=
  ["read header: EOF", "read header: unexpected EOF",
   "invalid IPv4: EOF", "invalid IPv4: unexpected EOF",
   "invalid hostname: EOF", "invalid hostname: unexpected EOF",
   "read port: EOF", "read port: unexpected EOF"]

/-! ## `main.go` and the relay -/

/-- `func Forward(client net.Conn, target net.Conn)`: starts the goroutines
`forward(client, target)` and `forward(target, client)` and returns. -/
def Forward (w : World) (client target : Stream) : World :=
  { w with trace := w.trace ++ [Event.spawn client target, Event.spawn target client] }

/-- What the goroutine `forward(src, dest)` does from the return of
`io.Copy(src, dest)` on: the deferred calls run last in, first out, so
`dest.Close()` comes before `src.Close()`. -/
def forwardExit (src dest : Stream) : List Event :=
  [Event.copy src dest, Event.close dest, Event.close src]

/-- The orders in which the actions of two goroutines can follow one another. -/
inductive Interleave : List Event → List Event → List Event → Prop where
  | nil : Interleave [] [] []
  | left (e : Event) {xs ys zs : List Event} :
      Interleave xs ys zs → Interleave (e :: xs) ys (e :: zs)
  | right (e : Event) {xs ys zs : List Event} :
      Interleave xs ys zs → Interleave xs (e :: ys) (e :: zs)

/-- `func process(client net.Conn)`. The calls to the logger are left out: they
touch neither stream. A panic of `Auth` or `Conn` is not recovered. -/
def process (w : World) : Res Unit × World :=
  match Auth w with
  | (Res.error _, w) => (Res.ok (), Close w Stream.client)
  | (Res.panic m, w) => (Res.panic m, w)
  | (Res.ok (), w) =>
    match Conn w with
    | (Res.error _, w) => (Res.ok (), Close w Stream.client)
    | (Res.panic m, w) => (Res.panic m, w)
    | (Res.ok target, w) => (Res.ok (), Forward w Stream.client (Stream.remote target))

/-- The `spawn` events of a trace: the goroutines started, in order. -/
def spawned : List Event → List (Stream × Stream)
  | [] => []
  | .spawn s d :: t => (s, d) :: spawned t
  | _ :: t => spawned t

/-- A client that sends the IPv4 request for `10.0.0.1:8080`, on a working
transport. -/
def localRequestWorld : World := freshWorld [5, 1, 0, 1, 10, 0, 0, 1, 31, 144] []

/-- A client that sends a greeting, an IPv4 request and three more bytes, on
a working transport. -/
def sessionWorld : World :=
  freshWorld [5, 1, 0, 5, 1, 0, 1, 93, 184, 216, 34, 0x00, 0x50, 71, 69, 84] []

/-- The connections obtained by the dials of a trace, in order: the handles
that `net.Dial` answered, failed dials left out. -/
def connected (dial : String → GoString → DialResult) : List Event → List Handle
  | [] => []
  | .dial nw a :: t =>
    match dial nw a with
    | DialResult.conn h => h :: connected dial t
    | DialResult.fail _ => connected dial t
  | _ :: t => connected dial t

/-- Events that are reads from the client or writes to it. -/
def Quiet (evs : List Event) : Prop :=
  ∀ e ∈ evs, (∃ k n, e = Event.read k n) ∨ (∃ p n, e = Event.write p n)

/-- Number of bytes of a well-formed request: 4 of header, the address field,
2 of port. -/
def requestSize : Target → Nat
  | Target.ipv4 _ _ _ _ => 10
  | Target.domain len _ => 7 + len.val

/-- The contract of `io.Writer` for a `Write` of `len` bytes with outcome `o`:
the count is at most `len`, and a count below `len` comes with a non-nil error. -/
def KeepsWriterContract (o : WriteOutcome) (len : Nat) : Prop :=
  o.n ≤ len ∧ (o.n < len → o.err ≠ none)

/-! ## Lemmas on the primitives -/

theorem written_append (s t : List Event) : written (s ++ t) = written s ++ written t := by
  induction s with
  | nil => rfl
  | cons e s ih => cases e <;> simp [written, ih]

theorem dialed_append (s t : List Event) : dialed (s ++ t) = dialed s ++ dialed t := by
  induction s with
  | nil => rfl
  | cons e s ih => cases e <;> simp [dialed, ih]

theorem closes_append (x : Stream) (s t : List Event) :
    closes x (s ++ t) = closes x s + closes x t := by
  induction s with
  | nil => simp [closes]
  | cons e s ih => cases e <;> simp [closes, ih, Nat.add_assoc]

theorem bigEndianUint16_pair (hi lo : Byte) :
    bigEndianUint16 [hi, lo] = 256 * hi.val + lo.val := by
  have h1 := hi.isLt
  have h2 := lo.isLt
  have h3 : lo.val ||| (hi.val <<< 8) = 2 ^ 8 * hi.val + lo.val := by
    rw [Nat.lor_comm, Nat.shiftLeft_eq, Nat.mul_comm]
    exact (Nat.mul_add_lt_is_or (by simp [h2]) hi.val).symm
  simp only [bigEndianUint16, List.getD_cons_zero, List.getD_cons_succ, h3]
  omega

theorem Auth_greeting (w : World) (n : Byte) (ms rest : List Byte)
    (hin : w.input = 5 :: n :: (ms ++ rest)) (hlen : ms.length = n.val) :
    Auth w =
      (if (nextWrite w.wr 2).n ≠ 2 ∨ (nextWrite w.wr 2).err ≠ none
        then wrapErr "write rsp err: " (nextWrite w.wr 2).err else Res.ok (),
       { w with
          input := rest
          wr := w.wr.tail
          trace := w.trace ++ [Event.read 2 2, Event.read n.val n.val,
            Event.write [5, 0] (nextWrite w.wr 2).n] }) := by
  have h5 : ((5 : Byte) : Nat) = 5 := rfl
  simp [Auth, ReadFull, Write, hin, ← hlen, h5]
  split_ifs <;> rfl

theorem Conn_ipv4 (w : World) (r a b c d hi lo : Byte) (rest : List Byte)
    (hin : w.input = [5, 1, r, 1, a, b, c, d, hi, lo] ++ rest) :
    Conn w =
      dialAndReply
        { w with
          input := rest
          trace := w.trace ++ [Event.read 4 4, Event.read 4 4, Event.read 2 2] }
        (fmtD a.val ++ ascii "." ++ fmtD b.val ++ ascii "." ++ fmtD c.val ++ ascii "."
          ++ fmtD d.val ++ ascii ":" ++ fmtD (256 * hi.val + lo.val)) := by
  simp [Conn, readAddr, ReadFull, hin, bigEndianUint16_pair]

theorem Conn_domain (w : World) (r len hi lo : Byte) (host rest : List Byte)
    (hin : w.input = [5, 1, r, 3, len] ++ host ++ [hi, lo] ++ rest)
    (hlen : host.length = len.val) :
    Conn w =
      dialAndReply
        { w with
          input := rest
          trace := w.trace ++ [Event.read 4 4, Event.read 1 1,
            Event.read len.val len.val, Event.read 2 2] }
        (host ++ ascii ":" ++ fmtD (256 * hi.val + lo.val)) := by
  simp [Conn, readAddr, ReadFull, hin, ← hlen, bigEndianUint16_pair]

theorem ReadsOnly.refl (w : World) : ReadsOnly w w :=
  ⟨rfl, rfl, [], by simp, by simp⟩

theorem ReadsOnly.trans {w w1 w2 : World} (h1 : ReadsOnly w w1) (h2 : ReadsOnly w1 w2) :
    ReadsOnly w w2 := by
  obtain ⟨a1, b1, e1, t1, r1⟩ := h1
  obtain ⟨a2, b2, e2, t2, r2⟩ := h2
  refine ⟨a2.trans a1, b2.trans b1, e1 ++ e2, by rw [t2, t1, List.append_assoc], ?_⟩
  intro e he
  rcases List.mem_append.1 he with h | h
  · exact r1 e h
  · exact r2 e h

theorem ReadFull_readsOnly (w : World) (buf : List Byte) (k : Nat) :
    ReadsOnly w (ReadFull w buf k).world :=
  ⟨rfl, rfl, [Event.read k (w.input.take k).length], rfl, by simp⟩

theorem ReadFull_short (w : World) (buf : List Byte) (k : Nat)
    (h : (ReadFull w buf k).n ≠ k) :
    (ReadFull w buf k).err
      = some (if (ReadFull w buf k).n = 0 then "EOF" else "unexpected EOF") := by
  simp only [ReadFull] at h ⊢
  rw [if_neg h]
  split <;> rfl

theorem wrapErr_short {α : Type} (pre : String) (w : World) (buf : List Byte) (k : Nat)
    (h : (ReadFull w buf k).n ≠ k) :
    (wrapErr pre (ReadFull w buf k).err : Res α)
      = Res.error (pre ++ if (ReadFull w buf k).n = 0 then "EOF" else "unexpected EOF") := by
  rw [ReadFull_short w buf k h]
  rfl

theorem readAddr_cases (w : World) (buf : List Byte) (atyp : Byte) :
    ReadsOnly w (readAddr w buf atyp).2.2 ∧
      ((∃ m, (readAddr w buf atyp).1 = Res.error m) ∨
        (∃ a, (readAddr w buf atyp).1 = Res.ok a)) := by
  unfold readAddr
  simp only []
  split_ifs with h1 h4 h3 h31 h3n
  · exact ⟨ReadFull_readsOnly w buf 4, Or.inl ⟨_, wrapErr_short _ _ _ _ h4⟩⟩
  · exact ⟨ReadFull_readsOnly w buf 4, Or.inr ⟨_, rfl⟩⟩
  · exact ⟨ReadFull_readsOnly w buf 1, Or.inl ⟨_, wrapErr_short _ _ _ _ h31⟩⟩
  · exact ⟨(ReadFull_readsOnly w buf 1).trans (ReadFull_readsOnly _ (ReadFull w buf 1).buf _),
      Or.inl ⟨_, wrapErr_short _ _ _ _ h3n⟩⟩
  · exact ⟨(ReadFull_readsOnly w buf 1).trans (ReadFull_readsOnly _ (ReadFull w buf 1).buf _),
      Or.inr ⟨_, rfl⟩⟩
  · exact ⟨ReadsOnly.refl _, Or.inl ⟨_, rfl⟩⟩
  · exact ⟨ReadsOnly.refl _, Or.inl ⟨_, rfl⟩⟩

/-- Every run of `Conn` either fails having only read from the client, or
reaches the dial having only read from the client. -/
theorem Conn_cases (w : World) :
    (∃ m w1, Conn w = (Res.error m, w1) ∧ ReadsOnly w w1) ∨
      (∃ w1 dst, Conn w = dialAndReply w1 dst ∧ ReadsOnly w w1) := by
  have hA := readAddr_cases (ReadFull w (make 256) 4).world (ReadFull w (make 256) 4).buf
    ((ReadFull w (make 256) 4).buf.getD 3 0)
  have h0 := ReadFull_readsOnly w (make 256) 4
  unfold Conn
  simp only []
  split_ifs with h4 hv hc
  · exact Or.inl ⟨_, _, by rw [wrapErr_short _ _ _ _ h4], h0⟩
  · exact Or.inl ⟨_, _, rfl, h0⟩
  · exact Or.inl ⟨_, _, rfl, h0⟩
  · obtain ⟨hro, hres⟩ := hA
    split
    · next m b w1 heq =>
      rw [heq] at hro
      exact Or.inl ⟨_, _, rfl, h0.trans hro⟩
    · next m b w1 heq =>
      rw [heq] at hres
      rcases hres with ⟨m2, hm⟩ | ⟨a, ha⟩
      · cases hm
      · cases ha
    · next addr b w1 heq =>
      rw [heq] at hro
      simp only at hro
      split_ifs with hp
      · exact Or.inl ⟨_, _, by rw [wrapErr_short _ _ _ _ hp], (h0.trans hro).trans
          (ReadFull_readsOnly w1 b 2)⟩
      · exact Or.inr ⟨_, _, rfl, (h0.trans hro).trans (ReadFull_readsOnly w1 b 2)⟩

theorem Conn_request (w : World) (rsv hi lo : Byte) (t : Target) (rest : List Byte)
    (hin : w.input = requestBytes rsv t hi lo ++ rest) (hwf : t.wf) :
    Conn w =
      dialAndReply { w with input := rest, trace := w.trace ++ t.reads } (hostPort t hi lo) := by
  cases t with
  | ipv4 a b c d => exact Conn_ipv4 w rsv a b c d hi lo rest (by simpa [requestBytes, Target.wire] using hin)
  | domain len host =>
    exact Conn_domain w rsv len hi lo host rest
      (by simpa [requestBytes, Target.wire] using hin) hwf

theorem dialAndReply_dialed (w : World) (dst : GoString) :
    dialed (dialAndReply w dst).2.trace = dialed w.trace ++ [("tcp", dst)] := by
  unfold dialAndReply Dial
  cases h : w.dial "tcp" dst with
  | fail e => simp [dialed_append, dialed]
  | conn d =>
    simp only [Write, Close]
    split <;> simp [dialed_append, dialed]

theorem written_reads (evs : List Event) (hr : ∀ e ∈ evs, ∃ k n, e = Event.read k n) :
    written evs = [] := by
  induction evs with
  | nil => rfl
  | cons e es ih =>
    obtain ⟨k, n, rfl⟩ := hr _ (List.mem_cons_self _ _)
    exact ih (fun e he => hr e (List.mem_cons_of_mem _ he))

theorem written_readsOnly {w w1 : World} (h : ReadsOnly w w1) :
    written w1.trace = written w.trace := by
  obtain ⟨_, _, evs, ht, hr⟩ := h
  rw [ht, written_append, written_reads evs hr, List.append_nil]

theorem dialAndReply_conn (w : World) (dst : GoString) (d : Handle)
    (hd : w.dial "tcp" dst = DialResult.conn d) :
    dialAndReply w dst =
      if (nextWrite w.wr 10).err ≠ none then
        (wrapErr "write rsp: " (nextWrite w.wr 10).err,
          { w with
            wr := w.wr.tail
            trace := w.trace ++ [Event.dial "tcp" dst,
              Event.write replyFrame (nextWrite w.wr 10).n, Event.close (Stream.remote d)] })
      else
        (Res.ok d,
          { w with
            wr := w.wr.tail
            trace := w.trace ++ [Event.dial "tcp" dst,
              Event.write replyFrame (nextWrite w.wr 10).n] }) := by
  simp only [dialAndReply, Dial, hd, Write, Close, replyFrame, List.length_cons,
    List.length_nil]
  split_ifs <;> simp

theorem dialAndReply_fail (w : World) (dst : GoString) (e : String)
    (hd : w.dial "tcp" dst = DialResult.fail e) :
    dialAndReply w dst =
      (Res.error ("dial dst: " ++ e), { w with trace := w.trace ++ [Event.dial "tcp" dst] }) := by
  simp only [dialAndReply, Dial, hd]

theorem dialAndReply_ok_inv (w : World) (dst : GoString) (d : Handle)
    (h : (dialAndReply w dst).1 = Res.ok d) :
    (nextWrite w.wr 10).err = none ∧
      (dialAndReply w dst).2.trace =
        w.trace ++ [Event.dial "tcp" dst, Event.write replyFrame (nextWrite w.wr 10).n] := by
  cases hd : w.dial "tcp" dst with
  | fail e =>
    rw [dialAndReply_fail w dst e hd] at h
    cases h
  | conn d2 =>
    rw [dialAndReply_conn w dst d2 hd] at h ⊢
    split_ifs at h ⊢ with herr
    · cases he : (nextWrite w.wr 10).err with
      | none => exact absurd he herr
      | some e => rw [he] at h; cases h
    · exact ⟨not_not.1 herr, rfl⟩

theorem Auth_short_header (w : World) (h : w.input.length < 2) :
    Auth w =
      (Res.error ("reading header: " ++ if w.input.length = 0 then "EOF" else "unexpected EOF"),
        { w with input := [], trace := w.trace ++ [Event.read 2 w.input.length] }) := by
  have hn : (ReadFull w (make 256) 2).n ≠ 2 := by
    simp only [ReadFull, List.length_take]
    omega
  have hw : (ReadFull w (make 256) 2).world
      = { w with input := [], trace := w.trace ++ [Event.read 2 w.input.length] } := by
    simp only [ReadFull, List.length_take]
    rw [List.drop_eq_nil_of_le (by omega), Nat.min_eq_right (by omega)]
  have hk : (ReadFull w (make 256) 2).n = w.input.length := by
    simp only [ReadFull, List.length_take]
    omega
  unfold Auth
  simp only []
  rw [if_pos hn, wrapErr_short _ _ _ _ hn, hw, hk]

theorem Auth_bad_version (w : World) (v n : Byte) (rest : List Byte)
    (hin : w.input = v :: n :: rest) (hv : v ≠ 5) :
    Auth w = (Res.error "invalid version",
      { w with input := rest, trace := w.trace ++ [Event.read 2 2] }) := by
  have hv2 : ¬ (v : Nat) = 5 := fun h => hv (Fin.ext h)
  simp [Auth, ReadFull, hin, hv2]

theorem Auth_short_methods (w : World) (n : Byte) (ms : List Byte)
    (hin : w.input = 5 :: n :: ms) (hlen : ms.length < n.val) :
    Auth w =
      (Res.error ("reading methods: " ++ if ms.length = 0 then "EOF" else "unexpected EOF"),
        { w with
          input := []
          trace := w.trace ++ [Event.read 2 2, Event.read n.val ms.length] }) := by
  have h5 : ((5 : Byte) : Nat) = 5 := rfl
  have hne : ¬ ms.length = n.val := by omega
  have hmin : min n.val ms.length = ms.length := by omega
  have hd : List.drop n.val ms = [] := List.drop_eq_nil_of_le (by omega)
  simp [Auth, ReadFull, hin, h5, hmin, hne, hd, wrapErr]
  split_ifs <;> simp_all

theorem ReadFull_lt (w : World) (buf : List Byte) (k : Nat) (h : w.input.length < k) :
    ReadFull w buf k =
      { n := w.input.length
        err := some (eofCause w.input.length)
        buf := w.input ++ buf.drop w.input.length
        world := { w with input := [], trace := w.trace ++ [Event.read k w.input.length] } } := by
  have hmin : min k w.input.length = w.input.length := by omega
  have hne : ¬ w.input.length = k := by omega
  have hd : List.drop k w.input = [] := List.drop_eq_nil_of_le (by omega)
  have ht : List.take k w.input = w.input := List.take_of_length_le (by omega)
  simp only [ReadFull, List.length_take, hmin, hne, hd, ht, eofCause, if_false]
  split_ifs <;> rfl

theorem Conn_short_header (w : World) (h : w.input.length < 4) :
    Conn w =
      (Res.error ("read header: " ++ eofCause w.input.length),
        { w with input := [], trace := w.trace ++ [Event.read 4 w.input.length] }) := by
  have hne : ¬ w.input.length = 4 := by omega
  simp [Conn, ReadFull_lt w _ 4 h, hne, wrapErr]

theorem Conn_short_ipv4 (w : World) (rsv : Byte) (tl : List Byte)
    (hin : w.input = 5 :: 1 :: rsv :: 1 :: tl) (h : tl.length < 4) :
    Conn w =
      (Res.error ("invalid IPv4: " ++ eofCause tl.length),
        { w with
          input := []
          trace := w.trace ++ [Event.read 4 4, Event.read 4 tl.length] }) := by
  have hne : ¬ tl.length = 4 := by omega
  have hmin : min 4 tl.length = tl.length := by omega
  have hd : List.drop 4 tl = [] := List.drop_eq_nil_of_le (by omega)
  simp [Conn, readAddr, ReadFull, hin, hne, hmin, hd, wrapErr, eofCause]
  split_ifs <;> simp_all

theorem Conn_short_host (w : World) (rsv len : Byte) (tl : List Byte)
    (hin : w.input = 5 :: 1 :: rsv :: 3 :: len :: tl) (h : tl.length < len.val) :
    Conn w =
      (Res.error ("invalid hostname: " ++ eofCause tl.length),
        { w with
          input := []
          trace := w.trace ++ [Event.read 4 4, Event.read 1 1, Event.read len.val tl.length] }) := by
  have hne : ¬ tl.length = len.val := by omega
  have hmin : min len.val tl.length = tl.length := by omega
  have hd : List.drop len.val tl = [] := List.drop_eq_nil_of_le (by omega)
  simp [Conn, readAddr, ReadFull, hin, hne, hmin, hd, wrapErr, eofCause]
  split_ifs <;> simp_all

theorem Conn_short_len (w : World) (rsv : Byte) (hin : w.input = [5, 1, rsv, 3]) :
    Conn w =
      (Res.error "invalid hostname: EOF",
        { w with input := [], trace := w.trace ++ [Event.read 4 4, Event.read 1 0] }) := by
  simp [Conn, readAddr, ReadFull, hin, wrapErr]

theorem Conn_short_port_ipv4 (w : World) (rsv a b c d : Byte) (tl : List Byte)
    (hin : w.input = 5 :: 1 :: rsv :: 1 :: a :: b :: c :: d :: tl) (h : tl.length < 2) :
    Conn w =
      (Res.error ("read port: " ++ eofCause tl.length),
        { w with
          input := []
          trace := w.trace ++ [Event.read 4 4, Event.read 4 4, Event.read 2 tl.length] }) := by
  have hne : ¬ tl.length = 2 := by omega
  have hmin : min 2 tl.length = tl.length := by omega
  have hd : List.drop 2 tl = [] := List.drop_eq_nil_of_le (by omega)
  simp [Conn, readAddr, ReadFull, hin, hne, hmin, hd, wrapErr, eofCause]
  split_ifs <;> simp_all

theorem Conn_short_port_domain (w : World) (rsv len : Byte) (host tl : List Byte)
    (hin : w.input = 5 :: 1 :: rsv :: 3 :: len :: (host ++ tl))
    (hlen : host.length = len.val) (h : tl.length < 2) :
    Conn w =
      (Res.error ("read port: " ++ eofCause tl.length),
        { w with
          input := []
          trace := w.trace ++ [Event.read 4 4, Event.read 1 1,
            Event.read len.val len.val, Event.read 2 tl.length] }) := by
  have hne : ¬ tl.length = 2 := by omega
  have hmin : min 2 tl.length = tl.length := by omega
  have hd : List.drop 2 tl = [] := List.drop_eq_nil_of_le (by omega)
  simp [Conn, readAddr, ReadFull, hin, ← hlen, hne, hmin, hd, wrapErr, eofCause]
  split_ifs <;> simp_all

theorem append_split {α : Type} (inp q xs r : List α) (h : inp ++ q = xs ++ r)
    (hl : xs.length ≤ inp.length) : ∃ tl, inp = xs ++ tl ∧ tl ++ q = r := by
  rcases List.append_eq_append_iff.1 h with ⟨a, ha, hq⟩ | ⟨c, hc, hr⟩
  · have hlen := congrArg List.length ha
    rw [List.length_append] at hlen
    have ha0 : a = [] := List.length_eq_zero.1 (by omega)
    subst ha0
    exact ⟨[], by simpa using ha.symm, by simpa using hq⟩
  · exact ⟨c, hc, hr.symm⟩

theorem connReadErrors_mem (n : Nat) :
    "read header: " ++ eofCause n ∈ connReadErrors ∧
      "invalid IPv4: " ++ eofCause n ∈ connReadErrors ∧
      "invalid hostname: " ++ eofCause n ∈ connReadErrors ∧
      "read port: " ++ eofCause n ∈ connReadErrors := by
  unfold eofCause
  split_ifs <;> decide

theorem dialed_reads (evs : List Event) (hr : ∀ e ∈ evs, ∃ k n, e = Event.read k n) :
    dialed evs = [] := by
  induction evs with
  | nil => rfl
  | cons e es ih =>
    obtain ⟨k, n, rfl⟩ := hr _ (List.mem_cons_self _ _)
    exact ih (fun e he => hr e (List.mem_cons_of_mem _ he))

/-- A stream that stops inside a well-formed request makes `Conn` return one
of its read errors, with a world that differs from the start only by reads. -/
theorem Conn_prefix_of_request (w : World) (rsv hi lo : Byte) (t : Target) (q : List Byte)
    (hwf : t.wf) (hq : q ≠ []) (hin : w.input ++ q = requestBytes rsv t hi lo) :
    ∃ m evs, m ∈ connReadErrors ∧
      Conn w = (Res.error m, { w with input := [], trace := w.trace ++ evs }) ∧
      ∀ e ∈ evs, ∃ k n, e = Event.read k n := by
  have hqpos : 0 < q.length := List.length_pos.2 hq
  by_cases h4 : w.input.length < 4
  · exact ⟨_, _, (connReadErrors_mem _).1, Conn_short_header w h4, by simp⟩
  · cases t with
    | ipv4 a b c d =>
      obtain ⟨tl, htl, hrest⟩ := append_split w.input q [5, 1, rsv, 1] [a, b, c, d, hi, lo]
        (by simpa [requestBytes, Target.wire] using hin) (by simp; omega)
      by_cases h8 : tl.length < 4
      · exact ⟨_, _, (connReadErrors_mem _).2.1, Conn_short_ipv4 w rsv tl htl h8, by simp⟩
      · obtain ⟨tl2, htl2, hrest2⟩ := append_split tl q [a, b, c, d] [hi, lo]
          (by simpa using hrest) (by simp; omega)
        have hlen := congrArg List.length hrest2
        simp only [List.length_append, List.length_cons, List.length_nil] at hlen
        exact ⟨_, _, (connReadErrors_mem _).2.2.2,
          Conn_short_port_ipv4 w rsv a b c d tl2 (by rw [htl, htl2]; rfl) (by omega), by simp⟩
    | domain len host =>
      obtain ⟨tl, htl, hrest⟩ := append_split w.input q [5, 1, rsv, 3]
        (len :: (host ++ [hi, lo])) (by simpa [requestBytes, Target.wire] using hin)
        (by simp; omega)
      by_cases h0 : tl.length < 1
      · have htl0 : tl = [] := List.length_eq_zero.1 (by omega)
        subst htl0
        exact ⟨_, _, by decide, Conn_short_len w rsv (by simpa using htl), by simp⟩
      · obtain ⟨tl2, htl2, hrest2⟩ := append_split tl q [len] (host ++ [hi, lo])
          (by simpa using hrest) (by simp; omega)
        by_cases hh : tl2.length < len.val
        · exact ⟨_, _, (connReadErrors_mem _).2.2.1,
            Conn_short_host w rsv len tl2 (by rw [htl, htl2]; rfl) hh, by simp⟩
        · have hwf2 : host.length = len.val := hwf
          obtain ⟨tl3, htl3, hrest3⟩ := append_split tl2 q host [hi, lo] hrest2 (by omega)
          have hlen := congrArg List.length hrest3
          simp only [List.length_append, List.length_cons, List.length_nil] at hlen
          exact ⟨_, _, (connReadErrors_mem _).2.2.2,
            Conn_short_port_domain w rsv len host tl3 (by rw [htl, htl2, htl3]; rfl) hwf2
              (by omega), by simp⟩

theorem Conn_bad_version (w : World) (v cmd rsv atyp : Byte) (rest : List Byte)
    (hin : w.input = v :: cmd :: rsv :: atyp :: rest) (hv : v ≠ 5) :
    Conn w = (Res.error "invalid version",
      { w with input := rest, trace := w.trace ++ [Event.read 4 4] }) := by
  simp [Conn, ReadFull, hin, hv]

theorem Conn_bad_command (w : World) (cmd rsv atyp : Byte) (rest : List Byte)
    (hin : w.input = 5 :: cmd :: rsv :: atyp :: rest) (hc : cmd ≠ 1) :
    Conn w = (Res.error "invalid request type",
      { w with input := rest, trace := w.trace ++ [Event.read 4 4] }) := by
  simp [Conn, ReadFull, hin, hc]

theorem Conn_bad_atyp (w : World) (rsv atyp : Byte) (rest : List Byte)
    (hin : w.input = 5 :: 1 :: rsv :: atyp :: rest) (h1 : atyp ≠ 1) (h3 : atyp ≠ 3) :
    Conn w =
      (Res.error (if atyp = 4 then "IPv6: no supported yet" else "invalid atyp"),
        { w with input := rest, trace := w.trace ++ [Event.read 4 4] }) := by
  by_cases h4 : atyp = 4 <;> simp [Conn, readAddr, ReadFull, hin, h1, h3, h4]

theorem exists_cons_of_length {α : Type} (l : List α) (n : Nat) (h : n < l.length) :
    ∃ x tl, l = x :: tl ∧ tl.length = l.length - 1 := by
  cases l with
  | nil => simp at h
  | cons x tl => exact ⟨x, tl, rfl, by simp⟩

/-- Every run of `Conn` either returns an error after reads alone, each into a
slice of at most 256 bytes, or was given a stream that starts with a
well-formed request. -/
theorem Conn_shape (w : World) :
    (∃ m evs rem, Conn w = (Res.error m, { w with input := rem, trace := w.trace ++ evs }) ∧
        ∀ e ∈ evs, ∃ k n, e = Event.read k n ∧ k ≤ 256) ∨
      (∃ (rsv hi lo : Byte) (t : Target) (rest : List Byte),
        t.wf ∧ w.input = requestBytes rsv t hi lo ++ rest) := by
  by_cases h4 : w.input.length < 4
  · exact Or.inl ⟨_, _, _, Conn_short_header w h4, by simp⟩
  obtain ⟨v, l1, e1, n1⟩ := exists_cons_of_length w.input 0 (by omega)
  obtain ⟨cmd, l2, e2, n2⟩ := exists_cons_of_length l1 0 (by omega)
  obtain ⟨rsv, l3, e3, n3⟩ := exists_cons_of_length l2 0 (by omega)
  obtain ⟨atyp, tl, e4, _⟩ := exists_cons_of_length l3 0 (by omega)
  have hin : w.input = v :: cmd :: rsv :: atyp :: tl := by rw [e1, e2, e3, e4]
  by_cases hv : v = 5
  swap
  · exact Or.inl ⟨_, _, _, Conn_bad_version w v cmd rsv atyp tl hin hv, by simp⟩
  subst hv
  by_cases hc : cmd = 1
  swap
  · exact Or.inl ⟨_, _, _, Conn_bad_command w cmd rsv atyp tl hin hc, by simp⟩
  subst hc
  by_cases h1 : atyp = 1
  · subst h1
    by_cases ha : tl.length < 4
    · exact Or.inl ⟨_, _, _, Conn_short_ipv4 w rsv tl hin ha, by simp⟩
    obtain ⟨a, m1, f1, k1⟩ := exists_cons_of_length tl 0 (by omega)
    obtain ⟨b, m2, f2, k2⟩ := exists_cons_of_length m1 0 (by omega)
    obtain ⟨c, m3, f3, k3⟩ := exists_cons_of_length m2 0 (by omega)
    obtain ⟨d, tl2, f4, k4⟩ := exists_cons_of_length m3 0 (by omega)
    have hin2 : w.input = 5 :: 1 :: rsv :: 1 :: a :: b :: c :: d :: tl2 := by
      rw [hin, f1, f2, f3, f4]
    by_cases hp : tl2.length < 2
    · exact Or.inl ⟨_, _, _, Conn_short_port_ipv4 w rsv a b c d tl2 hin2 hp, by simp⟩
    obtain ⟨hi, p1, g1, j1⟩ := exists_cons_of_length tl2 0 (by omega)
    obtain ⟨lo, rest, g2, _⟩ := exists_cons_of_length p1 0 (by omega)
    exact Or.inr ⟨rsv, hi, lo, Target.ipv4 a b c d, rest, trivial, by
      rw [hin2, g1, g2]; rfl⟩
  by_cases h3 : atyp = 3
  swap
  · exact Or.inl ⟨_, _, _, Conn_bad_atyp w rsv atyp tl hin h1 h3, by simp⟩
  subst h3
  by_cases hl : tl.length < 1
  · have htl : tl = [] := List.length_eq_zero.1 (by omega)
    subst htl
    exact Or.inl ⟨_, _, _, Conn_short_len w rsv hin, by simp⟩
  obtain ⟨len, tl2, f1, _⟩ := exists_cons_of_length tl 0 (by omega)
  have hin2 : w.input = 5 :: 1 :: rsv :: 3 :: len :: tl2 := by rw [hin, f1]
  by_cases hh : tl2.length < len.val
  · refine Or.inl ⟨_, _, _, Conn_short_host w rsv len tl2 hin2 hh, ?_⟩
    have := len.isLt
    intro e he
    simp only [List.mem_cons, List.mem_singleton, List.not_mem_nil, or_false] at he
    rcases he with rfl | rfl | rfl
    · exact ⟨_, _, rfl, by omega⟩
    · exact ⟨_, _, rfl, by omega⟩
    · exact ⟨_, _, rfl, by omega⟩
  have hsplit : tl2 = tl2.take len.val ++ tl2.drop len.val := (List.take_append_drop _ _).symm
  have hlen : (tl2.take len.val).length = len.val := by
    rw [List.length_take]
    omega
  by_cases hp : (tl2.drop len.val).length < 2
  · refine Or.inl ⟨_, _, _, Conn_short_port_domain w rsv len (tl2.take len.val)
      (tl2.drop len.val) (by rw [← hsplit]; exact hin2) hlen hp, ?_⟩
    have := len.isLt
    intro e he
    simp only [List.mem_cons, List.mem_singleton, List.not_mem_nil, or_false] at he
    rcases he with rfl | rfl | rfl | rfl
    · exact ⟨_, _, rfl, by omega⟩
    · exact ⟨_, _, rfl, by omega⟩
    · exact ⟨_, _, rfl, by omega⟩
    · exact ⟨_, _, rfl, by omega⟩
  obtain ⟨hi, p1, g1, j1⟩ := exists_cons_of_length (tl2.drop len.val) 0 (by omega)
  obtain ⟨lo, rest, g2, _⟩ := exists_cons_of_length p1 0 (by omega)
  have e : tl2 = tl2.take len.val ++ hi :: lo :: rest := by
    rw [← g2, ← g1]
    exact hsplit
  refine Or.inr ⟨rsv, hi, lo, Target.domain len (tl2.take len.val), rest, hlen, ?_⟩
  rw [hin2]
  simpa [requestBytes, Target.wire] using e

theorem spawned_append (s t : List Event) : spawned (s ++ t) = spawned s ++ spawned t := by
  induction s with
  | nil => rfl
  | cons e s ih => cases e <;> simp [spawned, ih]

theorem connected_append (f : String → GoString → DialResult) (s t : List Event) :
    connected f (s ++ t) = connected f s ++ connected f t := by
  induction s with
  | nil => rfl
  | cons e s ih =>
    cases e with
    | dial nw a =>
      simp only [List.cons_append, connected]
      cases f nw a <;> simp [ih]
    | _ => simp [connected, ih]

theorem Quiet.nothing {evs : List Event} (h : Quiet evs)
    (f : String → GoString → DialResult) (x : Stream) :
    dialed evs = [] ∧ spawned evs = [] ∧ closes x evs = 0 ∧ connected f evs = [] := by
  induction evs with
  | nil => exact ⟨rfl, rfl, rfl, rfl⟩
  | cons e es ih =>
    have ih2 := ih (fun e he => h e (List.mem_cons_of_mem _ he))
    rcases h e (List.mem_cons_self _ _) with ⟨k, n, rfl⟩ | ⟨p, n, rfl⟩
    · exact ih2
    · exact ih2

theorem Quiet.of_reads {evs : List Event} (h : ∀ e ∈ evs, ∃ k n, e = Event.read k n) :
    Quiet evs :=
  fun e he => Or.inl (h e he)

theorem ReadFull_trace (w : World) (buf : List Byte) (k : Nat) :
    (ReadFull w buf k).world.trace = w.trace ++ [Event.read k (ReadFull w buf k).n] :=
  rfl

theorem Write_trace (w : World) (p : List Byte) :
    (Write w p).2.trace = w.trace ++ [Event.write p (Write w p).1.n] :=
  rfl

/-- `Auth` only reads from the client and writes to it, each read into a slice
of at most 256 bytes, and leaves the network as it is. -/
theorem Auth_trace (w : World) :
    (Auth w).2.dial = w.dial ∧
      ∃ evs, (Auth w).2.trace = w.trace ++ evs ∧ Quiet evs ∧
        ∀ k n, Event.read k n ∈ evs → k ≤ 256 := by
  have hb := ((ReadFull w (make 256) 2).buf.getD 1 0).isLt
  unfold Auth
  simp only []
  split_ifs
  · exact ⟨rfl, [Event.read 2 _], ReadFull_trace w (make 256) 2, by simp [Quiet], by simp⟩
  · exact ⟨rfl, [Event.read 2 _], ReadFull_trace w (make 256) 2, by simp [Quiet], by simp⟩
  · refine ⟨rfl, ?_⟩
    rw [ReadFull_trace, ReadFull_trace, List.append_assoc]
    refine ⟨_, rfl, by simp [Quiet], ?_⟩
    intro k n hk
    simp only [List.mem_cons, List.mem_singleton, List.not_mem_nil, or_false,
      Event.read.injEq, List.singleton_append] at hk
    omega
  · refine ⟨rfl, ?_⟩
    rw [Write_trace, ReadFull_trace, ReadFull_trace, List.append_assoc, List.append_assoc]
    refine ⟨_, rfl, by simp [Quiet], ?_⟩
    intro k n hk
    simp only [List.mem_cons, List.mem_singleton, List.not_mem_nil, or_false,
      Event.read.injEq, reduceCtorEq, false_or, List.singleton_append] at hk
    omega
  · refine ⟨rfl, ?_⟩
    rw [Write_trace, ReadFull_trace, ReadFull_trace, List.append_assoc, List.append_assoc]
    refine ⟨_, rfl, by simp [Quiet], ?_⟩
    intro k n hk
    simp only [List.mem_cons, List.mem_singleton, List.not_mem_nil, or_false,
      Event.read.injEq, reduceCtorEq, false_or, List.singleton_append] at hk
    omega

/-- What a run of `Conn` adds to the trace: it starts no goroutine and never
closes the client, it does not panic, a returned stream is the one stream it
dialed and is left open after a dial and the reply write, and on an error every
stream it dialed has been closed once. -/
theorem Conn_effects (w : World) :
    (Conn w).2.dial = w.dial ∧
      ∃ evs, (Conn w).2.trace = w.trace ++ evs ∧ spawned evs = [] ∧
        closes Stream.client evs = 0 ∧ (connected w.dial evs).length ≤ 1 ∧
        (∀ m, (Conn w).1 ≠ Res.panic m) ∧
        (∀ d, (Conn w).1 = Res.ok d →
          connected w.dial evs = [d] ∧ (∀ x, closes x evs = 0) ∧
            ∃ pre dst n, evs = pre ++ [Event.dial "tcp" dst, Event.write replyFrame n] ∧
              Quiet pre) ∧
        (∀ m, (Conn w).1 = Res.error m →
          ∀ h, closes (Stream.remote h) evs = (connected w.dial evs).count h) := by
  rcases Conn_cases w with ⟨m, w1, hc, hro⟩ | ⟨w1, dst, hc, hro⟩
  · obtain ⟨_, hdial, evs, ht, hr⟩ := hro
    have hq := Quiet.of_reads hr
    rw [hc]
    refine ⟨hdial, evs, ht, (hq.nothing w.dial Stream.client).2.1,
      (hq.nothing w.dial Stream.client).2.2.1, by simp [(hq.nothing w.dial Stream.client).2.2.2],
      fun m2 h => (by cases h), fun d h => (by cases h), fun m2 _ h => ?_⟩
    rw [(hq.nothing w.dial (Stream.remote h)).2.2.1, (hq.nothing w.dial Stream.client).2.2.2]
    rfl
  · obtain ⟨hwr, hdial, evs, ht, hr⟩ := hro
    have hq := Quiet.of_reads hr
    have hn := fun x => hq.nothing w.dial x
    rw [hc]
    cases hd : w1.dial "tcp" dst with
    | fail e =>
      have hd2 : w.dial "tcp" dst = DialResult.fail e := by rw [← hdial]; exact hd
      rw [dialAndReply_fail w1 dst e hd]
      refine ⟨hdial, evs ++ [Event.dial "tcp" dst], by simp [ht],
        by simp [spawned_append, (hn Stream.client).2.1, spawned],
        by simp [closes_append, (hn Stream.client).2.2.1, closes],
        by simp [connected_append, (hn Stream.client).2.2.2, connected, hd2],
        fun m2 h => (by cases h), fun d h => (by cases h), fun m2 _ h => ?_⟩
      simp [closes_append, (hn (Stream.remote h)).2.2.1, closes, connected_append,
        (hn Stream.client).2.2.2, connected, hd2]
    | conn d =>
      have hd2 : w.dial "tcp" dst = DialResult.conn d := by rw [← hdial]; exact hd
      rw [dialAndReply_conn w1 dst d hd]
      by_cases herr : (nextWrite w1.wr 10).err ≠ none
      · rw [if_pos herr]
        obtain ⟨e, he⟩ : ∃ e, (nextWrite w1.wr 10).err = some e := by
          cases hx : (nextWrite w1.wr 10).err with
          | none => exact absurd hx herr
          | some e => exact ⟨e, rfl⟩
        refine ⟨hdial, evs ++ [Event.dial "tcp" dst,
            Event.write replyFrame (nextWrite w1.wr 10).n, Event.close (Stream.remote d)],
          by simp [ht],
          by simp [spawned_append, (hn Stream.client).2.1, spawned],
          by simp [closes_append, (hn Stream.client).2.2.1, closes],
          by simp [connected_append, (hn Stream.client).2.2.2, connected, hd2],
          fun m2 h => (by simp [he, wrapErr] at h),
          fun d2 h => (by simp [he, wrapErr] at h), fun m2 _ h => ?_⟩
        by_cases hdh : d = h
        · simp [closes_append, (hn (Stream.remote h)).2.2.1, closes, connected_append,
            (hn Stream.client).2.2.2, connected, hd2, hdh]
        · simp [closes_append, (hn (Stream.remote h)).2.2.1, closes, connected_append,
            (hn Stream.client).2.2.2, connected, hd2, hdh, List.count_cons]
      · rw [if_neg herr]
        refine ⟨hdial, evs ++ [Event.dial "tcp" dst,
            Event.write replyFrame (nextWrite w1.wr 10).n],
          by simp [ht],
          by simp [spawned_append, (hn Stream.client).2.1, spawned],
          by simp [closes_append, (hn Stream.client).2.2.1, closes],
          by simp [connected_append, (hn Stream.client).2.2.2, connected, hd2],
          fun m2 h => (by cases h), fun d2 h => ?_, fun m2 h => (by cases h)⟩
        cases h
        exact ⟨by simp [connected_append, (hn Stream.client).2.2.2, connected, hd2],
          fun x => by simp [closes_append, (hn x).2.2.1, closes],
          evs, dst, _, rfl, hq⟩

theorem process_auth_error (w : World) (e : String) (h : (Auth w).1 = Res.error e) :
    process w = (Res.ok (), Close (Auth w).2 Stream.client) := by
  unfold process
  rcases hA : Auth w with ⟨r, w1⟩
  rw [hA] at h
  cases h
  rfl

theorem process_auth_panic (w : World) (m : String) (h : (Auth w).1 = Res.panic m) :
    process w = (Res.panic m, (Auth w).2) := by
  unfold process
  rcases hA : Auth w with ⟨r, w1⟩
  rw [hA] at h
  cases h
  rfl

theorem process_conn_error (w : World) (e : String) (h : (Auth w).1 = Res.ok ())
    (hc : (Conn (Auth w).2).1 = Res.error e) :
    process w = (Res.ok (), Close (Conn (Auth w).2).2 Stream.client) := by
  unfold process
  rcases hA : Auth w with ⟨r, w1⟩
  rw [hA] at h hc
  cases h
  rcases hC : Conn w1 with ⟨r2, w2⟩
  rw [hC] at hc
  cases hc
  simp only [hC]

theorem process_forward (w : World) (d : Handle) (h : (Auth w).1 = Res.ok ())
    (hc : (Conn (Auth w).2).1 = Res.ok d) :
    process w =
      (Res.ok (), Forward (Conn (Auth w).2).2 Stream.client (Stream.remote d)) := by
  unfold process
  rcases hA : Auth w with ⟨r, w1⟩
  rw [hA] at h hc
  cases h
  rcases hC : Conn w1 with ⟨r2, w2⟩
  rw [hC] at hc
  cases hc
  simp only [hC]

theorem closes_interleave (x : Stream) {xs ys zs : List Event} (h : Interleave xs ys zs) :
    closes x zs = closes x xs + closes x ys := by
  induction h with
  | nil => rfl
  | left e _ ih => cases e <;> (simp only [closes, ih]; try omega)
  | right e _ ih => cases e <;> (simp only [closes, ih]; try omega)

theorem dialAndReply_input (w : World) (dst : GoString) :
    (dialAndReply w dst).2.input = w.input := by
  cases hd : w.dial "tcp" dst with
  | fail e => rw [dialAndReply_fail w dst e hd]
  | conn d =>
    rw [dialAndReply_conn w dst d hd]
    split_ifs <;> rfl

theorem requestBytes_length (rsv hi lo : Byte) (t : Target) (hwf : t.wf) :
    (requestBytes rsv t hi lo).length = requestSize t := by
  cases t with
  | ipv4 a b c d => rfl
  | domain len host =>
    have h : host.length = len.val := hwf
    simp [requestBytes, Target.wire, requestSize, h]
    omega

theorem wrapErr_ne_panic_of_some {α : Type} (pre e m : String) :
    (wrapErr pre (some e) : Res α) ≠ Res.panic m := by
  simp [wrapErr]

/-- `Auth` panics only in its write branch, on a nil error. -/
theorem Auth_panic_inv (w : World) (m : String) (h : (Auth w).1 = Res.panic m) :
    (nextWrite w.wr 2).n ≠ 2 ∧ (nextWrite w.wr 2).err = none := by
  unfold Auth at h
  simp only [] at h
  split_ifs at h with h2 hv hn hw
  · rw [wrapErr_short _ _ _ _ h2] at h
    cases h
  · rw [wrapErr_short _ _ _ _ hn] at h
    cases h
  · have hw2 : (nextWrite w.wr 2).n ≠ 2 ∨ (nextWrite w.wr 2).err ≠ none := hw
    have h3 : (wrapErr "write rsp err: " (nextWrite w.wr 2).err : Res Unit) = Res.panic m := h
    cases he : (nextWrite w.wr 2).err with
    | some e =>
      rw [he] at h3
      exact absurd h3 (wrapErr_ne_panic_of_some _ _ _)
    | none =>
      rcases hw2 with hx | hx
      · exact ⟨hx, rfl⟩
      · exact absurd he hx

theorem dialAndReply_trace (w : World) (dst : GoString) :
    ∃ evs, (dialAndReply w dst).2.trace = w.trace ++ evs ∧
      ∀ k n, Event.read k n ∉ evs := by
  cases hd : w.dial "tcp" dst with
  | fail e =>
    rw [dialAndReply_fail w dst e hd]
    exact ⟨_, rfl, by simp⟩
  | conn d =>
    rw [dialAndReply_conn w dst d hd]
    split_ifs
    · exact ⟨_, rfl, by simp⟩
    · exact ⟨_, rfl, by simp⟩

/-! ## Properties of `Auth`, `Conn` and `process` -/

/-- C1: on a client stream that starts with `[5, 1, r, 1, a, b, c, d, hi, lo]`,
`Conn` makes exactly one dial, over `tcp`, to the address string
`dec(a).dec(b).dec(c).dec(d):dec(256*hi+lo)`, whatever the reserved byte, the
bytes that follow, the dial result and the write outcome are. -/
theorem Conn_dials_ipv4 (w : World) (r a b c d hi lo : Byte) (rest : List Byte)
    (hin : w.input = [5, 1, r, 1, a, b, c, d, hi, lo] ++ rest) :
    dialed (Conn w).2.trace =
      dialed w.trace ++
        [("tcp", fmtD a.val ++ ascii "." ++ fmtD b.val ++ ascii "." ++ fmtD c.val ++ ascii "."
            ++ fmtD d.val ++ ascii ":" ++ fmtD (256 * hi.val + lo.val))] := by
  rw [Conn_ipv4 w r a b c d hi lo rest hin, dialAndReply_dialed]
  simp [dialed_append, dialed]

/-- Witness of C1: address bytes 93, 184, 216, 34 and port bytes 0x00, 0x50
dial `93.184.216.34:80`. -/
theorem Conn_dials_ipv4_witness :
    (freshWorld [5, 1, 0, 1, 93, 184, 216, 34, 0x00, 0x50] []).input
        = [5, 1, 0, 1, 93, 184, 216, 34, 0x00, 0x50] ++ [] ∧
      dialed (Conn (freshWorld [5, 1, 0, 1, 93, 184, 216, 34, 0x00, 0x50] [])).2.trace
        = [("tcp", ascii "93.184.216.34:80")] :=
  ⟨rfl, (Conn_dials_ipv4 (freshWorld [5, 1, 0, 1, 93, 184, 216, 34, 0x00, 0x50] [])
    0 93 184 216 34 0x00 0x50 [] rfl).trans (by decide)⟩

/-- C2: on a client stream that starts with `[5, 1, r, 3, L]`, then `L` host
bytes `h`, then `[hi, lo]`, `Conn` makes exactly one dial, over `tcp`, to the
bytes of `h` as they are followed by `:` and `dec(256*hi+lo)`; the host bytes
are not validated and the port read into the same buffer does not change them. -/
theorem Conn_dials_domain (w : World) (r len hi lo : Byte) (host rest : List Byte)
    (hin : w.input = [5, 1, r, 3, len] ++ host ++ [hi, lo] ++ rest)
    (hlen : host.length = len.val) :
    dialed (Conn w).2.trace =
      dialed w.trace ++ [("tcp", host ++ ascii ":" ++ fmtD (256 * hi.val + lo.val))] := by
  rw [Conn_domain w r len hi lo host rest hin hlen, dialAndReply_dialed]
  simp [dialed_append, dialed]

/-- Witness of C2: length 11, host `example.com` and port 443 dial
`example.com:443`. -/
theorem Conn_dials_domain_witness :
    (freshWorld ([5, 1, 0, 3, 11] ++ ascii "example.com" ++ [1, 187] ++ []) []).input
        = [5, 1, 0, 3, 11] ++ ascii "example.com" ++ [1, 187] ++ [] ∧
      (ascii "example.com").length = (11 : Byte).val ∧
      dialed (Conn (freshWorld ([5, 1, 0, 3, 11] ++ ascii "example.com" ++ [1, 187] ++ [])
        [])).2.trace = [("tcp", ascii "example.com:443")] :=
  ⟨rfl, by decide, (Conn_dials_domain
    (freshWorld ([5, 1, 0, 3, 11] ++ ascii "example.com" ++ [1, 187] ++ []) [])
    0 11 1 187 (ascii "example.com") [] rfl (by decide)).trans (by decide)⟩

/-- C3: on a client stream that starts with `[5, n]` and `n` method bytes of
any value, when the write reports 2 bytes and no error, `Auth` returns success
and the bytes written to the client are exactly `[0x05, 0x00]`. -/
theorem Auth_accepts_any_methods (w : World) (n : Byte) (ms rest : List Byte)
    (hin : w.input = 5 :: n :: (ms ++ rest)) (hlen : ms.length = n.val)
    (hw : nextWrite w.wr 2 = ⟨2, none⟩) :
    (Auth w).1 = Res.ok () ∧ written (Auth w).2.trace = written w.trace ++ [0x05, 0x00] := by
  rw [Auth_greeting w n ms rest hin hlen, hw]
  simp [written_append, written]

/-- Witness of C3: no method offered (`n = 0`), and three methods without 0x00. -/
theorem Auth_accepts_any_methods_witness :
    ((Auth (freshWorld [5, 0] [])).1 = Res.ok () ∧
      written (Auth (freshWorld [5, 0] [])).2.trace = [0x05, 0x00]) ∧
    ((Auth (freshWorld [5, 3, 1, 2, 255, 9] [])).1 = Res.ok () ∧
      written (Auth (freshWorld [5, 3, 1, 2, 255, 9] [])).2.trace = [0x05, 0x00]) :=
  ⟨Auth_accepts_any_methods (freshWorld [5, 0] []) 0 [] [] rfl rfl rfl,
   Auth_accepts_any_methods (freshWorld [5, 3, 1, 2, 255, 9] []) 3 [1, 2, 255] [9] rfl rfl rfl⟩

/-- C4: for every well-formed CONNECT request (ATYP 1 or 3) whose dial succeeds,
when the reply write reports 10 bytes and no error `Conn` returns exactly the
dialed stream and the client received exactly the 10-byte reply; and on every
client stream whose transport keeps the contract of `io.Writer`, `Conn`
returns a destination stream only when the write of the reply succeeded with
all 10 bytes written, the client having received the whole reply. -/
theorem Conn_reply_on_success (w : World) :
    (∀ (rsv hi lo : Byte) (t : Target) (rest : List Byte) (d : Handle),
        w.input = requestBytes rsv t hi lo ++ rest → t.wf →
        w.dial "tcp" (hostPort t hi lo) = DialResult.conn d →
        nextWrite w.wr 10 = ⟨10, none⟩ →
        (Conn w).1 = Res.ok d ∧ written (Conn w).2.trace = written w.trace ++ replyFrame) ∧
    (∀ d : Handle, KeepsWriterContract (nextWrite w.wr 10) 10 → (Conn w).1 = Res.ok d →
        nextWrite w.wr 10 = ⟨10, none⟩ ∧
        written (Conn w).2.trace = written w.trace ++ replyFrame) := by
  constructor
  · intro rsv hi lo t rest d hin hwf hd hw
    rw [Conn_request w rsv hi lo t rest hin hwf,
      dialAndReply_conn { w with input := rest, trace := w.trace ++ t.reads } _ d hd]
    simp only [hw]
    cases t <;> simp [written_append, written, Target.reads, replyFrame]
  · intro d hcontract hok
    rcases Conn_cases w with ⟨m, w1, hc, _⟩ | ⟨w1, dst, hc, hro⟩
    · rw [hc] at hok
      cases hok
    · rw [hc] at hok ⊢
      obtain ⟨herr, htr⟩ := dialAndReply_ok_inv w1 dst d hok
      rw [hro.1] at herr htr
      have hn : (nextWrite w.wr 10).n = 10 := by
        have h1 := hcontract.1
        by_contra hne
        exact hcontract.2 (by omega) herr
      have hout : nextWrite w.wr 10 = ⟨10, none⟩ := by
        cases ho : nextWrite w.wr 10 with
        | mk n e =>
          rw [ho] at hn herr
          simp only at hn herr
          rw [hn, herr]
      refine ⟨hout, ?_⟩
      rw [htr, written_append, written_readsOnly hro, hn]
      simp [written, replyFrame]

/-- Witness of C4: an IPv4 request on a working transport. -/
theorem Conn_reply_on_success_witness :
    ((Conn (freshWorld [5, 1, 0, 1, 93, 184, 216, 34, 0x00, 0x50] [])).1 = Res.ok 7 ∧
      written (Conn (freshWorld [5, 1, 0, 1, 93, 184, 216, 34, 0x00, 0x50] [])).2.trace
        = replyFrame) ∧
    KeepsWriterContract
      (nextWrite (freshWorld [5, 1, 0, 1, 93, 184, 216, 34, 0x00, 0x50] []).wr 10) 10 ∧
    nextWrite (freshWorld [5, 1, 0, 1, 93, 184, 216, 34, 0x00, 0x50] []).wr 10
      = ⟨10, none⟩ :=
  ⟨(Conn_reply_on_success (freshWorld [5, 1, 0, 1, 93, 184, 216, 34, 0x00, 0x50] [])).1
      0 0x00 0x50 (Target.ipv4 93 184 216 34) [] 7 rfl trivial rfl rfl,
   ⟨by decide, fun h => absurd h (by decide)⟩,
   ((Conn_reply_on_success (freshWorld [5, 1, 0, 1, 93, 184, 216, 34, 0x00, 0x50] [])).2
      7 ⟨by decide, fun h => absurd h (by decide)⟩ rfl).1⟩

/-- C5: on a client stream of at least 4 bytes, a first byte other than 5 makes
`Conn` fail with `invalid version` whatever the command and address type are,
and a first byte 5 with a second byte other than 1 makes it fail with
`invalid request type` whatever the address type is. In both cases the only
action is the read of the 4 header bytes: the bytes after them stay unread,
nothing is dialed and no stream is returned. -/
theorem Conn_rejects_version_and_command (w : World) (v cmd rsv atyp : Byte)
    (rest : List Byte) (hin : w.input = v :: cmd :: rsv :: atyp :: rest) :
    (v ≠ 5 → Conn w = (Res.error "invalid version",
        { w with input := rest, trace := w.trace ++ [Event.read 4 4] })) ∧
    (v = 5 → cmd ≠ 1 → Conn w = (Res.error "invalid request type",
        { w with input := rest, trace := w.trace ++ [Event.read 4 4] })) := by
  constructor
  · intro hv
    simp [Conn, ReadFull, hin, hv]
  · intro hv hc
    simp [Conn, ReadFull, hin, hv, hc]

/-- Witness of C5: version 4 with a CONNECT command, then BIND and UDP
ASSOCIATE under version 5. -/
theorem Conn_rejects_version_and_command_witness :
    Conn (freshWorld [4, 1, 0, 1, 9, 9] [])
        = (Res.error "invalid version",
            { freshWorld [4, 1, 0, 1, 9, 9] [] with
              input := [9, 9], trace := [Event.read 4 4] }) ∧
      Conn (freshWorld [5, 2, 0, 1, 9, 9] [])
        = (Res.error "invalid request type",
            { freshWorld [5, 2, 0, 1, 9, 9] [] with
              input := [9, 9], trace := [Event.read 4 4] }) ∧
      Conn (freshWorld [5, 3, 0, 3, 9, 9] [])
        = (Res.error "invalid request type",
            { freshWorld [5, 3, 0, 3, 9, 9] [] with
              input := [9, 9], trace := [Event.read 4 4] }) :=
  ⟨(Conn_rejects_version_and_command (freshWorld [4, 1, 0, 1, 9, 9] []) 4 1 0 1 [9, 9] rfl).1
      (by decide),
   (Conn_rejects_version_and_command (freshWorld [5, 2, 0, 1, 9, 9] []) 5 2 0 1 [9, 9] rfl).2
      rfl (by decide),
   (Conn_rejects_version_and_command (freshWorld [5, 3, 0, 3, 9, 9] []) 5 3 0 3 [9, 9] rfl).2
      rfl (by decide)⟩

/-- C6: on a header with version 5, command 1 and an address type other than 1
and 3 (4 included), `Conn` fails with the address-type error (`IPv6: no
supported yet` for 4, `invalid atyp` otherwise) and its only action is the read
of the 4 header bytes: no address or port byte is read, nothing is dialed and
no stream is returned. -/
theorem Conn_rejects_address_type (w : World) (rsv atyp : Byte) (rest : List Byte)
    (hin : w.input = 5 :: 1 :: rsv :: atyp :: rest) (h1 : atyp ≠ 1) (h3 : atyp ≠ 3) :
    Conn w =
      (Res.error (if atyp = 4 then "IPv6: no supported yet" else "invalid atyp"),
        { w with input := rest, trace := w.trace ++ [Event.read 4 4] }) := by
  by_cases h4 : atyp = 4 <;> simp [Conn, readAddr, ReadFull, hin, h1, h3, h4]

/-- Witness of C6: ATYP 4 followed by 16 address bytes and a port, none of
which is read. -/
theorem Conn_rejects_address_type_witness :
    Conn (freshWorld [5, 1, 0, 4, 0, 0, 0, 0, 0, 0, 0, 0, 0, 0, 0, 0, 0, 0, 0, 1, 0, 80] [])
      = (Res.error "IPv6: no supported yet",
          { freshWorld [5, 1, 0, 4, 0, 0, 0, 0, 0, 0, 0, 0, 0, 0, 0, 0, 0, 0, 0, 1, 0, 80] [] with
            input := [0, 0, 0, 0, 0, 0, 0, 0, 0, 0, 0, 0, 0, 0, 0, 1, 0, 80]
            trace := [Event.read 4 4] }) :=
  Conn_rejects_address_type
    (freshWorld [5, 1, 0, 4, 0, 0, 0, 0, 0, 0, 0, 0, 0, 0, 0, 0, 0, 0, 0, 1, 0, 80] [])
    0 4 [0, 0, 0, 0, 0, 0, 0, 0, 0, 0, 0, 0, 0, 0, 0, 1, 0, 80] rfl (by decide) (by decide)

/-- C7: on a client stream of at least 2 bytes whose first byte is not 5,
`Auth` fails with `invalid version` whatever the method count and the rest of
the stream are, and writes nothing to the client. -/
theorem Auth_rejects_version (w : World) (v n : Byte) (rest : List Byte)
    (hin : w.input = v :: n :: rest) (hv : v ≠ 5) :
    (Auth w).1 = Res.error "invalid version" ∧
      written (Auth w).2.trace = written w.trace ∧
      (Auth w).2.wr = w.wr := by
  rw [Auth_bad_version w v n rest hin hv]
  simp [written_append, written]

/-- Witness of C7: a SOCKS4 greeting. -/
theorem Auth_rejects_version_witness :
    (Auth (freshWorld [4, 1, 0] [])).1 = Res.error "invalid version" ∧
      written (Auth (freshWorld [4, 1, 0] [])).2.trace = [] ∧
      (Auth (freshWorld [4, 1, 0] [])).2.wr = [] :=
  Auth_rejects_version (freshWorld [4, 1, 0] []) 4 1 [0] rfl (by decide)

/-- C8: whenever `Auth` returns success on a client stream whose second byte is
`n`, the stream held at least `2 + n` bytes, what is left for the next stage is
the input without its first `2 + n` bytes, the reads were one of 2 and one of
`n` bytes, and the only write put the 2 bytes `[0x05, 0x00]` on the stream. -/
theorem Auth_consumes_greeting (w : World) (n : Byte) (hn : w.input.get? 1 = some n)
    (hok : (Auth w).1 = Res.ok ()) :
    2 + n.val ≤ w.input.length ∧
      (Auth w).2.input = w.input.drop (2 + n.val) ∧
      (Auth w).2.trace
        = w.trace ++ [Event.read 2 2, Event.read n.val n.val, Event.write [0x05, 0x00] 2] ∧
      written (Auth w).2.trace = written w.trace ++ [0x05, 0x00] := by
  obtain ⟨v, tl, hin⟩ : ∃ v tl, w.input = v :: n :: tl := by
    match hi : w.input, hn with
    | [_], h => simp at h
    | v :: m :: tl, h =>
      simp at h
      exact ⟨v, tl, by rw [h]⟩
  by_cases hv : v = 5
  · subst hv
    by_cases hlen : tl.length < n.val
    · rw [Auth_short_methods w n tl hin hlen] at hok
      cases hok
    · have hsplit : tl = tl.take n.val ++ tl.drop n.val := (List.take_append_drop _ _).symm
      have hl : (tl.take n.val).length = n.val := by
        rw [List.length_take]
        omega
      have hgo := Auth_greeting w n (tl.take n.val) (tl.drop n.val)
        (by rw [← hsplit]; exact hin) hl
      rw [hgo] at hok ⊢
      have hcond : ¬ ((nextWrite w.wr 2).n ≠ 2 ∨ (nextWrite w.wr 2).err ≠ none) := by
        intro hc
        rw [if_pos hc] at hok
        cases he : (nextWrite w.wr 2).err with
        | none => rw [he] at hok; cases hok
        | some e => rw [he] at hok; cases hok
      have h2 : (nextWrite w.wr 2).n = 2 := by
        by_contra h
        exact hcond (Or.inl h)
      refine ⟨by rw [hin]; simp only [List.length_cons]; omega, ?_, ?_, ?_⟩
      · simp only [hin]
        rw [Nat.add_comm]
        rfl
      · simp only [h2]
      · simp [h2, written_append, written]
  · rw [Auth_bad_version w v n tl hin hv] at hok
    cases hok

/-- Witness of C8: two methods, and two bytes of the next stage left unread. -/
theorem Auth_consumes_greeting_witness :
    (freshWorld [5, 2, 0, 2, 5, 1] []).input.get? 1 = some 2 ∧
      (Auth (freshWorld [5, 2, 0, 2, 5, 1] [])).1 = Res.ok () ∧
      (Auth (freshWorld [5, 2, 0, 2, 5, 1] [])).2.input = [5, 1] ∧
      written (Auth (freshWorld [5, 2, 0, 2, 5, 1] [])).2.trace = [0x05, 0x00] :=
  ⟨rfl, rfl,
    (Auth_consumes_greeting (freshWorld [5, 2, 0, 2, 5, 1] []) 2 rfl rfl).2.1,
    (Auth_consumes_greeting (freshWorld [5, 2, 0, 2, 5, 1] []) 2 rfl rfl).2.2.2⟩

/-- C9: for every well-formed CONNECT request whose dial succeeds, when the
write of the reply reports an error `Conn` returns that error as
`write rsp: ...` and no stream, and the last thing it does is one `Close()` on
the stream it has just dialed. -/
theorem Conn_closes_destination_on_write_error (w : World) (rsv hi lo : Byte) (t : Target)
    (rest : List Byte) (d : Handle) (e : String)
    (hin : w.input = requestBytes rsv t hi lo ++ rest) (hwf : t.wf)
    (hd : w.dial "tcp" (hostPort t hi lo) = DialResult.conn d)
    (hw : (nextWrite w.wr 10).err = some e) :
    (Conn w).1 = Res.error ("write rsp: " ++ e) ∧
      (Conn w).2.trace =
        w.trace ++ t.reads ++ [Event.dial "tcp" (hostPort t hi lo),
          Event.write replyFrame (nextWrite w.wr 10).n, Event.close (Stream.remote d)] ∧
      closes (Stream.remote d) (Conn w).2.trace = closes (Stream.remote d) w.trace + 1 := by
  rw [Conn_request w rsv hi lo t rest hin hwf,
    dialAndReply_conn { w with input := rest, trace := w.trace ++ t.reads } _ d hd]
  simp only [hw]
  cases t <;> simp [closes_append, closes, Target.reads, wrapErr]

/-- Witness of C9: the reply write fails with `broken pipe`. -/
theorem Conn_closes_destination_on_write_error_witness :
    (Conn brokenPipeWorld).1 = Res.error "write rsp: broken pipe" ∧
      (Conn brokenPipeWorld).2.trace =
        [Event.read 4 4, Event.read 4 4, Event.read 2 2,
          Event.dial "tcp" (ascii "93.184.216.34:80"),
          Event.write replyFrame 0, Event.close (Stream.remote 7)] ∧
      closes (Stream.remote 7) (Conn brokenPipeWorld).2.trace = 1 :=
  Conn_closes_destination_on_write_error brokenPipeWorld 0 0x00 0x50
    (Target.ipv4 93 184 216 34) [] 7 "broken pipe" rfl trivial rfl rfl

/-- C10: on a client stream that ends before 2 bytes, `Auth` fails with the
read error `reading header: ...`; on one that starts with `[5, n]` and ends
before `n` more bytes, it fails with the read error `reading methods: ...`.
The cause is `EOF` when the read got nothing and `unexpected EOF` otherwise.
In both cases nothing is written to the client. -/
theorem Auth_short_read (w : World) :
    (w.input.length < 2 →
      (Auth w).1 = Res.error
          ("reading header: " ++ if w.input.length = 0 then "EOF" else "unexpected EOF") ∧
        written (Auth w).2.trace = written w.trace ∧ (Auth w).2.wr = w.wr) ∧
    (∀ (n : Byte) (ms : List Byte), w.input = 5 :: n :: ms → ms.length < n.val →
      (Auth w).1 = Res.error
          ("reading methods: " ++ if ms.length = 0 then "EOF" else "unexpected EOF") ∧
        written (Auth w).2.trace = written w.trace ∧ (Auth w).2.wr = w.wr) := by
  constructor
  · intro h
    rw [Auth_short_header w h]
    simp [written_append, written]
  · intro n ms hin hlen
    rw [Auth_short_methods w n ms hin hlen]
    simp [written_append, written]

/-- Witness of C10: an empty stream, a one-byte stream, and a greeting that
announces three methods and carries one. -/
theorem Auth_short_read_witness :
    (Auth (freshWorld [] [])).1 = Res.error "reading header: EOF" ∧
      (Auth (freshWorld [5] [])).1 = Res.error "reading header: unexpected EOF" ∧
      (Auth (freshWorld [5, 3, 0] [])).1 = Res.error "reading methods: unexpected EOF" ∧
      written (Auth (freshWorld [5, 3, 0] [])).2.trace = [] :=
  ⟨((Auth_short_read (freshWorld [] [])).1 (by decide)).1,
   ((Auth_short_read (freshWorld [5] [])).1 (by decide)).1,
   ((Auth_short_read (freshWorld [5, 3, 0] [])).2 3 [0] rfl (by decide)).1,
   ((Auth_short_read (freshWorld [5, 3, 0] [])).2 3 [0] rfl (by decide)).2.1⟩

/-- C11: on a client stream that is a proper prefix of a well-formed CONNECT
request (ATYP 1 or 3), wherever it stops, `Conn` returns one of its read
errors, dials nothing, writes nothing and returns no stream; and on a stream
of fewer than 4 bytes the error is the header read error whatever the first
byte is, never the version or command error. -/
theorem Conn_truncated_request (w : World) :
    (∀ (rsv hi lo : Byte) (t : Target) (q : List Byte), t.wf → q ≠ [] →
        w.input ++ q = requestBytes rsv t hi lo →
        (∃ m ∈ connReadErrors, (Conn w).1 = Res.error m) ∧
          dialed (Conn w).2.trace = dialed w.trace ∧
          written (Conn w).2.trace = written w.trace) ∧
    (w.input.length < 4 →
        (Conn w).1 = Res.error ("read header: " ++ eofCause w.input.length) ∧
          dialed (Conn w).2.trace = dialed w.trace ∧
          written (Conn w).2.trace = written w.trace) := by
  constructor
  · intro rsv hi lo t q hwf hq hin
    obtain ⟨m, evs, hm, hc, hr⟩ := Conn_prefix_of_request w rsv hi lo t q hwf hq hin
    rw [hc]
    exact ⟨⟨m, hm, rfl⟩, by simp [dialed_append, dialed_reads evs hr],
      by simp [written_append, written_reads evs hr]⟩
  · intro h
    rw [Conn_short_header w h]
    simp [dialed_append, dialed, written_append, written]

/-- Witness of C11: the request for `example.com:443` cut after two host
bytes, and a two-byte stream whose first byte is 4. -/
theorem Conn_truncated_request_witness :
    ((∃ m ∈ connReadErrors,
        (Conn (freshWorld [5, 1, 0, 3, 11, 101, 120] [])).1 = Res.error m) ∧
      dialed (Conn (freshWorld [5, 1, 0, 3, 11, 101, 120] [])).2.trace = [] ∧
      written (Conn (freshWorld [5, 1, 0, 3, 11, 101, 120] [])).2.trace = []) ∧
    ((Conn (freshWorld [4, 1] [])).1 = Res.error "read header: unexpected EOF" ∧
      dialed (Conn (freshWorld [4, 1] [])).2.trace = [] ∧
      written (Conn (freshWorld [4, 1] [])).2.trace = []) :=
  ⟨(Conn_truncated_request (freshWorld [5, 1, 0, 3, 11, 101, 120] [])).1 0 1 187
      (Target.domain 11 (ascii "example.com")) [97, 109, 112, 108, 101, 46, 99, 111, 109, 1, 187]
      (show (ascii "example.com").length = (11 : Byte).val by decide) (by decide) (by decide),
   (Conn_truncated_request (freshWorld [4, 1] [])).2 (by decide)⟩

/-- C12: for every greeting with version 5 and its `n` method bytes present,
on a transport that keeps the contract of `io.Writer`, whenever the write of
the acknowledgement reports fewer than 2 bytes or an error, `Auth` returns the
write error `write rsp err: ...` made of that error: it does not succeed and
does not fail in any other way. -/
theorem Auth_write_failure (w : World) (n : Byte) (ms rest : List Byte)
    (hin : w.input = 5 :: n :: (ms ++ rest)) (hlen : ms.length = n.val)
    (hcontract : KeepsWriterContract (nextWrite w.wr 2) 2)
    (hfail : (nextWrite w.wr 2).n < 2 ∨ (nextWrite w.wr 2).err ≠ none) :
    ∃ e, (nextWrite w.wr 2).err = some e ∧
      (Auth w).1 = Res.error ("write rsp err: " ++ e) := by
  have herr : (nextWrite w.wr 2).err ≠ none := by
    rcases hfail with h | h
    · exact hcontract.2 h
    · exact h
  obtain ⟨e, he⟩ : ∃ e, (nextWrite w.wr 2).err = some e := by
    cases hx : (nextWrite w.wr 2).err with
    | none => exact absurd hx herr
    | some e => exact ⟨e, rfl⟩
  refine ⟨e, he, ?_⟩
  rw [Auth_greeting w n ms rest hin hlen, if_pos (Or.inr herr), he]
  rfl

/-- Witness of C12: one of the two bytes goes out before the connection is
reset, and a write that reports both bytes together with an error. -/
theorem Auth_write_failure_witness :
    (∃ e, (nextWrite (freshWorld [5, 1, 0] [⟨1, some "connection reset by peer"⟩]).wr 2).err
          = some e ∧
        (Auth (freshWorld [5, 1, 0] [⟨1, some "connection reset by peer"⟩])).1
          = Res.error ("write rsp err: " ++ e)) ∧
      (Auth (freshWorld [5, 1, 0] [⟨1, some "connection reset by peer"⟩])).1
        = Res.error "write rsp err: connection reset by peer" ∧
      (∃ e, (nextWrite (freshWorld [5, 0] [⟨2, some "i/o timeout"⟩]).wr 2).err = some e ∧
        (Auth (freshWorld [5, 0] [⟨2, some "i/o timeout"⟩])).1
          = Res.error ("write rsp err: " ++ e)) :=
  ⟨Auth_write_failure (freshWorld [5, 1, 0] [⟨1, some "connection reset by peer"⟩]) 1 [0] []
      rfl rfl ⟨by decide, fun _ => by decide⟩ (Or.inl (by decide)),
   by decide,
   Auth_write_failure (freshWorld [5, 0] [⟨2, some "i/o timeout"⟩]) 0 [] []
      rfl rfl ⟨by decide, fun _ => by decide⟩ (Or.inr (by decide))⟩

/-- C13: in `process`, neither `Auth` nor `Conn` starts a relay goroutine.
When `Auth` returns an error the only further action is `Close()` on the
client: `Conn` is not run and nothing is dialed. When `Auth` succeeds and
`Conn` returns an error the only further action is `Close()` on the client.
When both succeed the trace ends with the dial, the reply write and then the
two goroutines started by `Forward` on the client and the stream `Conn`
returned. Goroutines are started in no other case. -/
theorem process_runs_stages_in_order (w : World) :
    spawned (Auth w).2.trace = spawned w.trace ∧
    spawned (Conn (Auth w).2).2.trace = spawned w.trace ∧
    (∀ e, (Auth w).1 = Res.error e →
        (process w).2.trace = (Auth w).2.trace ++ [Event.close Stream.client] ∧
        spawned (process w).2.trace = spawned w.trace ∧
        dialed (process w).2.trace = dialed w.trace) ∧
    (∀ e, (Auth w).1 = Res.ok () → (Conn (Auth w).2).1 = Res.error e →
        (process w).2.trace = (Conn (Auth w).2).2.trace ++ [Event.close Stream.client] ∧
        spawned (process w).2.trace = spawned w.trace) ∧
    (∀ d, (Auth w).1 = Res.ok () → (Conn (Auth w).2).1 = Res.ok d →
        ∃ pre dst n, (process w).2.trace =
            pre ++ [Event.dial "tcp" dst, Event.write replyFrame n,
              Event.spawn Stream.client (Stream.remote d),
              Event.spawn (Stream.remote d) Stream.client] ∧
          spawned pre = spawned w.trace) ∧
    (spawned (process w).2.trace ≠ spawned w.trace →
        ∃ d, (Auth w).1 = Res.ok () ∧ (Conn (Auth w).2).1 = Res.ok d) := by
  obtain ⟨hda, ea, hta, hqa, _⟩ := Auth_trace w
  obtain ⟨_, ec, htc, hsc, _, _, hnp, hok, _⟩ := Conn_effects (Auth w).2
  have hna := fun x => hqa.nothing w.dial x
  have hsA : spawned (Auth w).2.trace = spawned w.trace := by
    rw [hta, spawned_append, (hna Stream.client).2.1, List.append_nil]
  have hsC : spawned (Conn (Auth w).2).2.trace = spawned w.trace := by
    rw [htc, spawned_append, hsc, List.append_nil, hsA]
  have h1 : ∀ e, (Auth w).1 = Res.error e →
      (process w).2.trace = (Auth w).2.trace ++ [Event.close Stream.client] ∧
      spawned (process w).2.trace = spawned w.trace ∧
      dialed (process w).2.trace = dialed w.trace := by
    intro e he
    rw [process_auth_error w e he]
    refine ⟨rfl, ?_, ?_⟩
    · simp [Close, spawned_append, hsA, spawned]
    · simp [Close, dialed_append, hta, (hna Stream.client).1, dialed]
  have h2 : ∀ e, (Auth w).1 = Res.ok () → (Conn (Auth w).2).1 = Res.error e →
      (process w).2.trace = (Conn (Auth w).2).2.trace ++ [Event.close Stream.client] ∧
      spawned (process w).2.trace = spawned w.trace := by
    intro e ha he
    rw [process_conn_error w e ha he]
    exact ⟨rfl, by simp [Close, spawned_append, hsC, spawned]⟩
  refine ⟨hsA, hsC, h1, h2, ?_, ?_⟩
  · intro d ha hc
    obtain ⟨_, _, pre, dst, n, hec, hqp⟩ := hok d hc
    rw [process_forward w d ha hc]
    refine ⟨(Auth w).2.trace ++ pre, dst, n, ?_, ?_⟩
    · simp [Forward, htc, hec]
    · rw [spawned_append, (hqp.nothing w.dial Stream.client).2.1, List.append_nil, hsA]
  · intro hne
    cases ha : (Auth w).1 with
    | error e => exact absurd (h1 e ha).2.1 hne
    | panic m =>
      rw [process_auth_panic w m ha] at hne
      exact absurd hsA hne
    | ok u =>
      cases hc : (Conn (Auth w).2).1 with
      | error e => exact absurd (h2 e ha hc).2 hne
      | panic m => exact absurd hc (hnp m)
      | ok d => exact ⟨d, rfl, rfl⟩

/-- Witness of C13: a stream with a bad version, one with a bad command after
a good greeting, and a full session. -/
theorem process_runs_stages_in_order_witness :
    (process (freshWorld [4, 1, 0] [])).2.trace
        = [Event.read 2 2, Event.close Stream.client] ∧
      spawned (process (freshWorld [5, 0, 5, 2, 0, 1] [])).2.trace = [] ∧
      (∃ pre dst n, (process sessionWorld).2.trace =
          pre ++ [Event.dial "tcp" dst, Event.write replyFrame n,
            Event.spawn Stream.client (Stream.remote 7),
            Event.spawn (Stream.remote 7) Stream.client] ∧
        spawned pre = spawned sessionWorld.trace) :=
  ⟨((process_runs_stages_in_order (freshWorld [4, 1, 0] [])).2.2.1 "invalid version" rfl).1,
   ((process_runs_stages_in_order (freshWorld [5, 0, 5, 2, 0, 1] [])).2.2.2.1
      "invalid request type" rfl rfl).2,
   (process_runs_stages_in_order sessionWorld).2.2.2.2.1 7 rfl rfl⟩

/-- C14, as the code has it: when `Auth` returns an error, `Close()` is called
once on the client and no stream is dialed or closed besides; when `Conn`
returns an error, `Close()` is called once on the client and once on each
stream `Conn` dialed (at most one); and when both succeed, once the two copy
loops have finished, in whatever order their steps fell, `Close()` has been
called twice on the client and twice on the dialed stream: once by each loop. -/
theorem process_close_counts (w : World) :
    (∀ e, (Auth w).1 = Res.error e →
        closes Stream.client (process w).2.trace = closes Stream.client w.trace + 1 ∧
        connected w.dial (process w).2.trace = connected w.dial w.trace ∧
        ∀ h, closes (Stream.remote h) (process w).2.trace
          = closes (Stream.remote h) w.trace) ∧
    (∀ e, (Auth w).1 = Res.ok () → (Conn (Auth w).2).1 = Res.error e →
        closes Stream.client (process w).2.trace = closes Stream.client w.trace + 1 ∧
        ∃ ds, connected w.dial (process w).2.trace = connected w.dial w.trace ++ ds ∧
          ds.length ≤ 1 ∧
          ∀ h, closes (Stream.remote h) (process w).2.trace
            = closes (Stream.remote h) w.trace + ds.count h) ∧
    (∀ d, (Auth w).1 = Res.ok () → (Conn (Auth w).2).1 = Res.ok d →
        connected w.dial (process w).2.trace = connected w.dial w.trace ++ [d] ∧
        ∀ tr, Interleave (forwardExit Stream.client (Stream.remote d))
            (forwardExit (Stream.remote d) Stream.client) tr →
          closes Stream.client ((process w).2.trace ++ tr)
            = closes Stream.client w.trace + 2 ∧
          closes (Stream.remote d) ((process w).2.trace ++ tr)
            = closes (Stream.remote d) w.trace + 2) := by
  obtain ⟨hda, ea, hta, hqa, _⟩ := Auth_trace w
  obtain ⟨_, ec, htc, hsc, hcc, hlen, _, hok, herr⟩ := Conn_effects (Auth w).2
  rw [hda] at hlen hok herr
  have hna := fun x => hqa.nothing w.dial x
  refine ⟨?_, ?_, ?_⟩
  · intro e he
    rw [process_auth_error w e he]
    refine ⟨?_, ?_, fun h => ?_⟩
    · simp [Close, closes_append, hta, (hna Stream.client).2.2.1, closes]
    · simp [Close, connected_append, hta, (hna Stream.client).2.2.2, connected]
    · simp [Close, closes_append, hta, (hna (Stream.remote h)).2.2.1, closes]
  · intro e ha he
    rw [process_conn_error w e ha he]
    refine ⟨?_, connected w.dial ec, ?_, hlen, fun h => ?_⟩
    · simp [Close, closes_append, htc, hta, (hna Stream.client).2.2.1, hcc, closes]
    · simp [Close, connected_append, htc, hta, (hna Stream.client).2.2.2, connected]
    · simp [Close, closes_append, htc, hta, (hna (Stream.remote h)).2.2.1, herr e he h, closes]
  · intro d ha hc
    obtain ⟨hcon, hcl, _⟩ := hok d hc
    rw [process_forward w d ha hc]
    refine ⟨?_, fun tr htr => ⟨?_, ?_⟩⟩
    · simp [Forward, connected_append, htc, hta, (hna Stream.client).2.2.2, hcon, connected]
    · rw [closes_append, closes_interleave Stream.client htr]
      simp [Forward, closes_append, htc, hta, (hna Stream.client).2.2.1, hcl, closes,
        forwardExit]
    · rw [closes_append, closes_interleave (Stream.remote d) htr]
      simp [Forward, closes_append, htc, hta, (hna (Stream.remote d)).2.2.1, hcl, closes,
        forwardExit]

/-- Witness of the amended C14: a bad version, a failed reply write, and a
full session whose two copy loops finish one after the other. -/
theorem process_close_counts_witness :
    closes Stream.client (process (freshWorld [4, 1, 0] [])).2.trace = 1 ∧
      (closes Stream.client
          (process (freshWorld [5, 0, 5, 1, 0, 1, 93, 184, 216, 34, 0x00, 0x50]
            [⟨2, none⟩, ⟨0, some "broken pipe"⟩])).2.trace = 1 ∧
        closes (Stream.remote 7)
          (process (freshWorld [5, 0, 5, 1, 0, 1, 93, 184, 216, 34, 0x00, 0x50]
            [⟨2, none⟩, ⟨0, some "broken pipe"⟩])).2.trace = 1) ∧
      closes (Stream.remote 7)
        ((process sessionWorld).2.trace ++
          [Event.copy Stream.client (Stream.remote 7), Event.close (Stream.remote 7),
            Event.close Stream.client, Event.copy (Stream.remote 7) Stream.client,
            Event.close Stream.client, Event.close (Stream.remote 7)]) = 2 :=
  ⟨((process_close_counts (freshWorld [4, 1, 0] [])).1 "invalid version" rfl).1,
   ⟨((process_close_counts (freshWorld [5, 0, 5, 1, 0, 1, 93, 184, 216, 34, 0x00, 0x50]
      [⟨2, none⟩, ⟨0, some "broken pipe"⟩])).2.1 "write rsp: broken pipe" rfl rfl).1, by decide⟩,
   (((process_close_counts sessionWorld).2.2 7 rfl rfl).2 _
      (Interleave.left _ (Interleave.left _ (Interleave.left _ (Interleave.right _
        (Interleave.right _ (Interleave.right _ Interleave.nil))))))).2⟩

/-- Counterexample to C14 as stated: a full session. After the handshake, the
request and the end of both copy loops, `Close()` has been called twice on the
client and twice on the dialed stream, not once. -/
theorem relay_closes_each_stream_twice :
    (process sessionWorld).1 = Res.ok () ∧
      closes Stream.client
        ((process sessionWorld).2.trace ++ forwardExit Stream.client (Stream.remote 7)
          ++ forwardExit (Stream.remote 7) Stream.client) = 2 ∧
      closes (Stream.remote 7)
        ((process sessionWorld).2.trace ++ forwardExit Stream.client (Stream.remote 7)
          ++ forwardExit (Stream.remote 7) Stream.client) = 2 := by
  decide

/-- C15, as the code has it: the reply `Conn` sends after a successful dial is
the version byte 5, the status byte 0, the reserved byte 0 and the address-type
tag 1, followed by six zero bytes, four for the bound address and two for the
bound port: 10 bytes in all. -/
theorem Conn_reply_frame (w : World) (rsv hi lo : Byte) (t : Target) (rest : List Byte)
    (d : Handle) (hin : w.input = requestBytes rsv t hi lo ++ rest) (hwf : t.wf)
    (hd : w.dial "tcp" (hostPort t hi lo) = DialResult.conn d) :
    ∃ tail, (tail = [] ∨ tail = [Event.close (Stream.remote d)]) ∧
      (Conn w).2.trace =
        w.trace ++ t.reads ++
          Event.dial "tcp" (hostPort t hi lo) ::
          Event.write ([0x05, 0x00, 0x00, 0x01] ++ List.replicate 6 0) (nextWrite w.wr 10).n ::
          tail := by
  rw [Conn_request w rsv hi lo t rest hin hwf,
    dialAndReply_conn { w with input := rest, trace := w.trace ++ t.reads } _ d hd]
  split_ifs
  · exact ⟨[Event.close (Stream.remote d)], Or.inr rfl, by simp [replyFrame]⟩
  · exact ⟨[], Or.inl rfl, by simp [replyFrame]⟩

/-- Witness of the amended C15: an IPv4 request on a working transport. -/
theorem Conn_reply_frame_witness :
    ∃ tail, (tail = [] ∨ tail = [Event.close (Stream.remote 7)]) ∧
      (Conn (freshWorld [5, 1, 0, 1, 10, 0, 0, 1, 31, 144] [])).2.trace =
        [] ++ [Event.read 4 4, Event.read 4 4, Event.read 2 2] ++
          Event.dial "tcp" (ascii "10.0.0.1:8080") ::
          Event.write ([0x05, 0x00, 0x00, 0x01] ++ List.replicate 6 0) 10 :: tail :=
  Conn_reply_frame (freshWorld [5, 1, 0, 1, 10, 0, 0, 1, 31, 144] []) 0 31 144
    (Target.ipv4 10 0 0 1) [] 7 rfl trivial rfl

/-- Counterexample to C15 as stated: the bytes that follow the address-type
tag in the reply are six zero bytes, not eight. -/
theorem Conn_reply_has_six_zero_bytes :
    written (Conn (freshWorld [5, 1, 0, 1, 10, 0, 0, 1, 31, 144] [])).2.trace
        = [0x05, 0x00, 0x00, 0x01] ++ List.replicate 6 0 ∧
      written (Conn (freshWorld [5, 1, 0, 1, 10, 0, 0, 1, 31, 144] [])).2.trace
        ≠ [0x05, 0x00, 0x00, 0x01] ++ List.replicate 8 0 := by
  decide

/-- C17: every run of `Conn` has one of three shapes. It fails in a read or in
the version, command or address-type check: it has then only read. Or it has
read a whole well-formed request with every read complete, has made one dial,
and the dial failed: nothing else follows. Or that one dial succeeded and the
reply write follows it. So nothing is written to the client unless a dial has
succeeded before, and no more than one dial is made. -/
theorem Conn_writes_only_after_dial (w : World) :
    (∃ m evs rem, Conn w = (Res.error m, { w with input := rem, trace := w.trace ++ evs }) ∧
        (∀ e ∈ evs, ∃ k n, e = Event.read k n) ∧
        written (Conn w).2.trace = written w.trace ∧
        dialed (Conn w).2.trace = dialed w.trace) ∨
    (∃ (rsv hi lo : Byte) (t : Target) (rest : List Byte) (e : String),
        t.wf ∧ w.input = requestBytes rsv t hi lo ++ rest ∧
        w.dial "tcp" (hostPort t hi lo) = DialResult.fail e ∧
        Conn w = (Res.error ("dial dst: " ++ e),
          { w with
            input := rest
            trace := w.trace ++ t.reads ++ [Event.dial "tcp" (hostPort t hi lo)] }) ∧
        written (Conn w).2.trace = written w.trace ∧
        dialed (Conn w).2.trace = dialed w.trace ++ [("tcp", hostPort t hi lo)]) ∨
    (∃ (rsv hi lo : Byte) (t : Target) (rest : List Byte) (d : Handle) (tail : List Event),
        t.wf ∧ w.input = requestBytes rsv t hi lo ++ rest ∧
        w.dial "tcp" (hostPort t hi lo) = DialResult.conn d ∧
        (tail = [] ∨ tail = [Event.close (Stream.remote d)]) ∧
        (Conn w).2.trace =
          w.trace ++ t.reads ++
            Event.dial "tcp" (hostPort t hi lo) ::
            Event.write replyFrame (nextWrite w.wr 10).n :: tail ∧
        dialed (Conn w).2.trace = dialed w.trace ++ [("tcp", hostPort t hi lo)]) := by
  rcases Conn_shape w with ⟨m, evs, rem, hc, hr⟩ | ⟨rsv, hi, lo, t, rest, hwf, hin⟩
  · have hr2 : ∀ e ∈ evs, ∃ k n, e = Event.read k n := fun e he => by
      obtain ⟨k, n, h, _⟩ := hr e he
      exact ⟨k, n, h⟩
    refine Or.inl ⟨m, evs, rem, hc, hr2, ?_, ?_⟩
    · rw [hc]
      simp [written_append, written_reads evs hr2]
    · rw [hc]
      simp [dialed_append, dialed_reads evs hr2]
  · have hreq := Conn_request w rsv hi lo t rest hin hwf
    have htr : ∀ e ∈ t.reads, ∃ k n, e = Event.read k n := by
      cases t <;> simp [Target.reads]
    cases hd : w.dial "tcp" (hostPort t hi lo) with
    | fail e =>
      have hc := hreq.trans
        (dialAndReply_fail { w with input := rest, trace := w.trace ++ t.reads } _ e hd)
      refine Or.inr (Or.inl ⟨rsv, hi, lo, t, rest, e, hwf, hin, hd, hc, ?_, ?_⟩)
      · rw [hc]
        simp [written_append, written_reads _ htr, written]
      · rw [hc]
        simp [dialed_append, dialed_reads _ htr, dialed]
    | conn d =>
      have hc := hreq.trans
        (dialAndReply_conn { w with input := rest, trace := w.trace ++ t.reads } _ d hd)
      by_cases herr : (nextWrite w.wr 10).err ≠ none
      · rw [if_pos herr] at hc
        refine Or.inr (Or.inr ⟨rsv, hi, lo, t, rest, d, [Event.close (Stream.remote d)],
          hwf, hin, hd, Or.inr rfl, ?_, ?_⟩)
        · rw [hc]
        · rw [hc]
          simp [dialed_append, dialed_reads _ htr, dialed]
      · rw [if_neg herr] at hc
        refine Or.inr (Or.inr ⟨rsv, hi, lo, t, rest, d, [], hwf, hin, hd, Or.inl rfl, ?_, ?_⟩)
        · rw [hc]
        · rw [hc]
          simp [dialed_append, dialed_reads _ htr, dialed]

/-- Witness of C17: a request cut in its port, with nothing dialed or written,
and a whole request, with one dial followed by the reply write. -/
theorem Conn_writes_only_after_dial_witness :
    (dialed (Conn (freshWorld [5, 1, 0, 1, 10, 0, 0, 1, 31] [])).2.trace = [] ∧
      written (Conn (freshWorld [5, 1, 0, 1, 10, 0, 0, 1, 31] [])).2.trace = []) ∧
    ((∃ m evs rem, Conn localRequestWorld
          = (Res.error m, { localRequestWorld with
              input := rem
              trace := localRequestWorld.trace ++ evs }) ∧
        (∀ e ∈ evs, ∃ k n, e = Event.read k n) ∧
        written (Conn localRequestWorld).2.trace
          = written localRequestWorld.trace ∧
        dialed (Conn localRequestWorld).2.trace
          = dialed localRequestWorld.trace) ∨
      (∃ (rsv hi lo : Byte) (t : Target) (rest : List Byte) (e : String),
        t.wf ∧ localRequestWorld.input
          = requestBytes rsv t hi lo ++ rest ∧
        localRequestWorld.dial "tcp" (hostPort t hi lo)
          = DialResult.fail e ∧
        Conn localRequestWorld
          = (Res.error ("dial dst: " ++ e),
            { localRequestWorld with
              input := rest
              trace := localRequestWorld.trace ++ t.reads
                ++ [Event.dial "tcp" (hostPort t hi lo)] }) ∧
        written (Conn localRequestWorld).2.trace
          = written localRequestWorld.trace ∧
        dialed (Conn localRequestWorld).2.trace
          = dialed localRequestWorld.trace
            ++ [("tcp", hostPort t hi lo)]) ∨
      (∃ (rsv hi lo : Byte) (t : Target) (rest : List Byte) (d : Handle) (tail : List Event),
        t.wf ∧ localRequestWorld.input
          = requestBytes rsv t hi lo ++ rest ∧
        localRequestWorld.dial "tcp" (hostPort t hi lo)
          = DialResult.conn d ∧
        (tail = [] ∨ tail = [Event.close (Stream.remote d)]) ∧
        (Conn localRequestWorld).2.trace =
          localRequestWorld.trace ++ t.reads ++
            Event.dial "tcp" (hostPort t hi lo) ::
            Event.write replyFrame
              (nextWrite localRequestWorld.wr 10).n :: tail ∧
        dialed (Conn localRequestWorld).2.trace
          = dialed localRequestWorld.trace
            ++ [("tcp", hostPort t hi lo)])) :=
  ⟨by decide, Conn_writes_only_after_dial localRequestWorld⟩

/-- C18: on a stream that starts with a well-formed request, the request has
10 bytes for IPv4 and `7 + L` bytes for a domain of length byte `L`, and after
`Conn` the client input is what followed those bytes, whatever the dial and the
write did; and whenever `Conn` has dialed, its input did start with a
well-formed request and only the bytes of that request were consumed. -/
theorem Conn_consumes_request (w : World) :
    (∀ (rsv hi lo : Byte) (t : Target) (rest : List Byte), t.wf →
        w.input = requestBytes rsv t hi lo ++ rest →
        (requestBytes rsv t hi lo).length = requestSize t ∧
        (Conn w).2.input = rest ∧
        (Conn w).2.input = w.input.drop (requestSize t) ∧
        dialed (Conn w).2.trace = dialed w.trace ++ [("tcp", hostPort t hi lo)]) ∧
    (dialed (Conn w).2.trace ≠ dialed w.trace →
        ∃ (rsv hi lo : Byte) (t : Target) (rest : List Byte),
          t.wf ∧ w.input = requestBytes rsv t hi lo ++ rest ∧
          (Conn w).2.input = rest ∧ (Conn w).2.input = w.input.drop (requestSize t)) := by
  have key : ∀ (rsv hi lo : Byte) (t : Target) (rest : List Byte), t.wf →
      w.input = requestBytes rsv t hi lo ++ rest →
      (requestBytes rsv t hi lo).length = requestSize t ∧
      (Conn w).2.input = rest ∧
      (Conn w).2.input = w.input.drop (requestSize t) ∧
      dialed (Conn w).2.trace = dialed w.trace ++ [("tcp", hostPort t hi lo)] := by
    intro rsv hi lo t rest hwf hin
    have hl := requestBytes_length rsv hi lo t hwf
    have htr : ∀ e ∈ t.reads, ∃ k n, e = Event.read k n := by
      cases t <;> simp [Target.reads]
    have hinp : (Conn w).2.input = rest := by
      rw [Conn_request w rsv hi lo t rest hin hwf, dialAndReply_input]
    refine ⟨hl, hinp, ?_, ?_⟩
    · rw [hinp, hin, ← hl, List.drop_left]
    · rw [Conn_request w rsv hi lo t rest hin hwf, dialAndReply_dialed]
      simp [dialed_append, dialed_reads _ htr]
  refine ⟨key, fun hne => ?_⟩
  rcases Conn_shape w with ⟨m, evs, rem, hc, hr⟩ | ⟨rsv, hi, lo, t, rest, hwf, hin⟩
  · exfalso
    apply hne
    have hr2 : ∀ e ∈ evs, ∃ k n, e = Event.read k n := fun e he => by
      obtain ⟨k, n, h, _⟩ := hr e he
      exact ⟨k, n, h⟩
    rw [hc]
    simp [dialed_append, dialed_reads evs hr2]
  · obtain ⟨_, h2, h3, _⟩ := key rsv hi lo t rest hwf hin
    exact ⟨rsv, hi, lo, t, rest, hwf, hin, h2, h3⟩

/-- Witness of C18: a domain request for `example.com:443` followed by two
more bytes. -/
theorem Conn_consumes_request_witness :
    (requestBytes 0 (Target.domain 11 (ascii "example.com")) 1 187).length = 7 + 11 ∧
      (Conn (freshWorld
        ([5, 1, 0, 3, 11] ++ ascii "example.com" ++ [1, 187] ++ [22, 3]) [])).2.input
        = [22, 3] :=
  ⟨((Conn_consumes_request (freshWorld
      ([5, 1, 0, 3, 11] ++ ascii "example.com" ++ [1, 187] ++ [22, 3]) [])).1 0 1 187
      (Target.domain 11 (ascii "example.com")) [22, 3]
      (show (ascii "example.com").length = (11 : Byte).val by decide) (by decide)).1,
   ((Conn_consumes_request (freshWorld
      ([5, 1, 0, 3, 11] ++ ascii "example.com" ++ [1, 187] ++ [22, 3]) [])).1 0 1 187
      (Target.domain 11 (ascii "example.com")) [22, 3]
      (show (ascii "example.com").length = (11 : Byte).val by decide) (by decide)).2.1⟩

/-- C19: `io.ReadFull` reports a non-nil error whenever it returns fewer bytes
than asked. Given that, and a write that keeps to `io.Writer` (a count of at
most the 2 bytes given, with a non-nil error when it is less), `Auth` does not
panic; `Conn` does not panic whatever its write does. Both are total, every
slice `buf[:k]` they read into has `k ≤ 256`, and so every `err.Error()` they
reach is called on a non-nil error. -/
theorem Auth_Conn_do_not_panic (w : World) :
    (∀ (buf : List Byte) (k : Nat),
        (ReadFull w buf k).n ≠ k → (ReadFull w buf k).err ≠ none) ∧
    ((nextWrite w.wr 2).n ≤ 2 →
        ((nextWrite w.wr 2).n < 2 → (nextWrite w.wr 2).err ≠ none) →
        ∀ m, (Auth w).1 ≠ Res.panic m) ∧
    (∃ evs, (Auth w).2.trace = w.trace ++ evs ∧ ∀ k n, Event.read k n ∈ evs → k ≤ 256) ∧
    (∀ m, (Conn w).1 ≠ Res.panic m) ∧
    (∃ evs, (Conn w).2.trace = w.trace ++ evs ∧ ∀ k n, Event.read k n ∈ evs → k ≤ 256) := by
  refine ⟨?_, ?_, ?_, ?_, ?_⟩
  · intro buf k h
    rw [ReadFull_short w buf k h]
    simp
  · intro hle hshort m hp
    obtain ⟨hn, he⟩ := Auth_panic_inv w m hp
    exact hshort (by omega) he
  · obtain ⟨_, evs, ht, _, hb⟩ := Auth_trace w
    exact ⟨evs, ht, hb⟩
  · obtain ⟨_, _, _, _, _, _, hnp, _⟩ := Conn_effects w
    exact hnp
  · rcases Conn_shape w with ⟨m, evs, rem, hc, hr⟩ | ⟨rsv, hi, lo, t, rest, hwf, hin⟩
    · refine ⟨evs, by rw [hc], fun k n hk => ?_⟩
      obtain ⟨k2, n2, h, hle⟩ := hr _ hk
      cases h
      exact hle
    · obtain ⟨evs, ht, hno⟩ :=
        dialAndReply_trace { w with input := rest, trace := w.trace ++ t.reads }
          (hostPort t hi lo)
      refine ⟨t.reads ++ evs, ?_, fun k n hk => ?_⟩
      · rw [Conn_request w rsv hi lo t rest hin hwf, ht, List.append_assoc]
      · rcases List.mem_append.1 hk with h | h
        · cases t with
          | ipv4 a b c d =>
            simp only [Target.reads, List.mem_cons, List.mem_singleton, List.not_mem_nil,
              or_false, Event.read.injEq] at h
            omega
          | domain len host =>
            have := len.isLt
            simp only [Target.reads, List.mem_cons, List.mem_singleton, List.not_mem_nil,
              or_false, Event.read.injEq] at h
            omega
        · exact absurd h (hno k n)

/-- Witness of C19: a greeting whose acknowledgement write fails with an error
while reporting no byte written. -/
theorem Auth_Conn_do_not_panic_witness :
    (nextWrite (freshWorld [5, 0] [⟨0, some "broken pipe"⟩]).wr 2).n ≤ 2 ∧
      (Auth (freshWorld [5, 0] [⟨0, some "broken pipe"⟩])).1
        = Res.error "write rsp err: broken pipe" ∧
      ∀ m, (Auth (freshWorld [5, 0] [⟨0, some "broken pipe"⟩])).1 ≠ Res.panic m :=
  ⟨by decide, by decide,
    (Auth_Conn_do_not_panic (freshWorld [5, 0] [⟨0, some "broken pipe"⟩])).2.1
      (by decide) (fun _ => by decide)⟩

/-- C20: on a client stream made of a greeting `[5, n]` with its `n` methods, a
well-formed CONNECT request and a payload, with the dial and both writes
succeeding, `process` dials exactly the destination of the request once, the
client has received `[0x05, 0x00]` and then the 10-byte reply, the trace ends
with `Forward` starting its two goroutines on the client and the dialed
stream, nothing has been closed, and the payload is the unread client input. -/
theorem process_full_session (w : World) (n rsv hi lo : Byte) (ms payload : List Byte)
    (t : Target) (d : Handle)
    (hin : w.input = 5 :: n :: (ms ++ (requestBytes rsv t hi lo ++ payload)))
    (hlen : ms.length = n.val) (hwf : t.wf)
    (hw1 : nextWrite w.wr 2 = ⟨2, none⟩) (hw2 : nextWrite w.wr.tail 10 = ⟨10, none⟩)
    (hd : w.dial "tcp" (hostPort t hi lo) = DialResult.conn d) :
    process w =
      (Res.ok (),
        { w with
          input := payload
          wr := w.wr.tail.tail
          trace := w.trace ++ [Event.read 2 2, Event.read n.val n.val,
              Event.write [0x05, 0x00] 2] ++ t.reads ++
            [Event.dial "tcp" (hostPort t hi lo), Event.write replyFrame 10,
              Event.spawn Stream.client (Stream.remote d),
              Event.spawn (Stream.remote d) Stream.client] }) ∧
      dialed (process w).2.trace = dialed w.trace ++ [("tcp", hostPort t hi lo)] ∧
      written (process w).2.trace = written w.trace ++ [0x05, 0x00] ++ replyFrame ∧
      (process w).2.input = payload := by
  have hA := Auth_greeting w n ms (requestBytes rsv t hi lo ++ payload) hin hlen
  rw [hw1] at hA
  simp only [ne_eq, not_true_eq_false, or_self, if_false] at hA
  have hC := Conn_request (Auth w).2 rsv hi lo t payload (by rw [hA]) hwf
  rw [dialAndReply_conn _ _ d (by rw [hA]; exact hd)] at hC
  have hw2b : nextWrite (Auth w).2.wr 10 = ⟨10, none⟩ := by rw [hA]; exact hw2
  rw [hw2b] at hC
  simp only [ne_eq, not_true_eq_false, if_false] at hC
  have hP : process w =
      (Res.ok (),
        { w with
          input := payload
          wr := w.wr.tail.tail
          trace := w.trace ++ [Event.read 2 2, Event.read n.val n.val,
              Event.write [0x05, 0x00] 2] ++ t.reads ++
            [Event.dial "tcp" (hostPort t hi lo), Event.write replyFrame 10,
              Event.spawn Stream.client (Stream.remote d),
              Event.spawn (Stream.remote d) Stream.client] }) := by
    rw [process_forward w d (by rw [hA]) (by rw [hC]), hC, hA]
    simp [Forward]
  have htr : ∀ e ∈ t.reads, ∃ k n, e = Event.read k n := by
    cases t <;> simp [Target.reads]
  rw [hP]
  refine ⟨rfl, ?_, ?_, rfl⟩
  · simp [dialed_append, dialed, dialed_reads _ htr]
  · simp [written_append, written, written_reads _ htr, replyFrame]

/-- Witness of C20: no method, an IPv4 request and the payload `GET`. -/
theorem process_full_session_witness :
    dialed (process sessionWorld).2.trace = [("tcp", ascii "93.184.216.34:80")] ∧
      written (process sessionWorld).2.trace
        = [0x05, 0x00] ++ [0x05, 0x00, 0x00, 0x01, 0, 0, 0, 0, 0, 0] ∧
      (process sessionWorld).2.input = [71, 69, 84] :=
  (process_full_session sessionWorld 1 0 0x00 0x50 [0] [71, 69, 84]
    (Target.ipv4 93 184 216 34) 7 rfl rfl trivial rfl rfl rfl).2

end Socks5
